import Mathlib

/-!
Verification development for the koney deception-policy controller.

The Go sources are shallowly embedded: each Lean definition mirrors one Go
function or type of the repository (names are kept where the checker allows
it; `TrapAnnotation`/`ChangeAnnotation` are rendered as `TrapRecord`/
`ChangeRecord`).  Kubernetes client calls are replaced by explicit data
(the listed cluster objects), `time.Now()` by an explicit `now : String`
argument, and Go's `error` values by `Option String` / `Except String`.
-/

namespace Koney

/-! ## api/v1alpha1: trap data model -/

/-- Mirrors `TrapType` (api/v1alpha1/dp_trap_types.go). -/
inductive TrapType where
  | unknownTrap
  | filesystemHoneytokenTrap
  | httpEndpointTrap
  | httpPayloadTrap
deriving DecidableEq, Repr

/-- Mirrors `FilesystemHoneytoken` (FilePath, FileContent, ReadOnly). -/
structure FilesystemHoneytoken where
  filePath : String
  fileContent : String
  readOnly : Bool
deriving DecidableEq, Repr

/-- Mirrors `HttpEndpoint`: the Go struct has no fields yet. -/
structure HttpEndpoint where
deriving DecidableEq, Repr

/-- Mirrors `HttpPayload`: the Go struct has no fields yet. -/
structure HttpPayload where
deriving DecidableEq, Repr

/-- Mirrors `metav1.LabelSelector` as used by the controller: only
`MatchLabels` is ever read (match expressions are flagged "not implemented"
and ignored by the code).  A Go map is rendered as an association list. -/
structure LabelSelector where
  matchLabels : List (String × String)
deriving DecidableEq, Repr

/-- Mirrors `ResourceDescription` / `ResourceFilter`
(api/v1alpha1/dp_matchresources_types.go).  `Namespaces` is a Go slice whose
`nil` and empty states are distinguished (`Option`); `Selector` is a nilable
pointer. -/
structure ResourceFilter where
  namespaces : Option (List String)
  selector : Option LabelSelector
  containerSelector : String
deriving DecidableEq, Repr

/-- Mirrors `MatchResources`: `Any` is a nilable slice of filters. -/
structure MatchResources where
  any : Option (List ResourceFilter)
deriving DecidableEq, Repr

/-- Mirrors `DecoyDeployment` (strategy string). -/
structure DecoyDeployment where
  strategy : String
deriving DecidableEq, Repr

/-- Mirrors `CaptorDeployment` (strategy string). -/
structure CaptorDeployment where
  strategy : String
deriving DecidableEq, Repr

/-- Mirrors `Trap` (api/v1alpha1/dp_trap_types.go). -/
structure Trap where
  filesystemHoneytoken : FilesystemHoneytoken
  httpEndpoint : HttpEndpoint
  httpPayload : HttpPayload
  decoyDeployment : DecoyDeployment
  captorDeployment : CaptorDeployment
  matchResources : MatchResources
deriving DecidableEq, Repr

/-- The zero value `FilesystemHoneytoken{}` that Go compares against. -/
def zeroFilesystemHoneytoken : FilesystemHoneytoken :=
  { filePath := "", fileContent := "", readOnly := false }

/-- Mirrors `Trap.TrapType()`: the populated variant wins.  Note that
`HttpEndpoint{}`/`HttpPayload{}` have no fields, so the Go comparisons
`trap.HttpEndpoint != HttpEndpoint{}` are always false; they are kept here
verbatim. -/
def Trap.trapType (t : Trap) : TrapType :=
  if t.filesystemHoneytoken ≠ zeroFilesystemHoneytoken then .filesystemHoneytokenTrap
  else if t.httpEndpoint ≠ HttpEndpoint.mk then .httpEndpointTrap
  else if t.httpPayload ≠ HttpPayload.mk then .httpPayloadTrap
  else .unknownTrap

/-! ## Validation (`Trap.IsValid` and friends)

Go functions returning `error` are embedded with an explicit result type that
also records a runtime panic (a nil-pointer dereference aborts the function
instead of returning an error value). -/

/-- Outcome of running a Go validation function: a `nil` error, a non-nil
error with its message, or a runtime panic (nil-pointer dereference). -/
inductive GoResult where
  | ok
  | invalid (msg : String)
  | crashNilDeref
deriving DecidableEq, Repr

/-- Go `len()` applied to a possibly-nil slice (`nil` has length 0). -/
def lenOptList (o : Option (List α)) : Nat := (o.getD []).length

/-- Mirrors `FilesystemHoneytoken.IsValid` (file path must be absolute;
`filepath.IsAbs` on Linux means a leading slash). -/
def FilesystemHoneytoken.isValid (f : FilesystemHoneytoken) : GoResult :=
  if ¬ f.filePath.startsWith "/" then
    .invalid ("FilePath is not absolute: '" ++ f.filePath ++ "'")
  else .ok

/-- The filter loop inside `Trap.IsValid`.  The Go condition
`len(value.Namespaces) == 0 && len(value.Selector.MatchLabels) == 0`
dereferences `value.Selector` whenever the first conjunct is true, which
panics when the selector pointer is nil. -/
def checkResourceFilters : List ResourceFilter → GoResult
  | [] => .ok
  | f :: fs =>
    match f.namespaces, f.selector with
    | none, none =>
      .invalid "MatchResources.Any.Namespaces and MatchResources.Any.Selector are nil"
    | _, _ =>
      if lenOptList f.namespaces = 0 then
        match f.selector with
        | none => .crashNilDeref
        | some sel =>
          if sel.matchLabels.length = 0 then
            .invalid "MatchResources.Any.Namespaces and MatchResources.Any.Selector are empty"
          else checkResourceFilters fs
      else checkResourceFilters fs

/-- Mirrors `Trap.IsValid` (api/v1alpha1/dp_trap_types.go): check the
resource filters, then that exactly one trap variant is populated, then the
per-kind validation. -/
def Trap.isValid (t : Trap) : GoResult :=
  match t.matchResources.any with
  | none => .invalid "MatchResources.Any is nil"
  | some filters =>
    match checkResourceFilters filters with
    | .ok =>
      let numTraps : Nat :=
        (if t.filesystemHoneytoken ≠ zeroFilesystemHoneytoken then 1 else 0)
        + (if t.httpEndpoint ≠ HttpEndpoint.mk then 1 else 0)
        + (if t.httpPayload ≠ HttpPayload.mk then 1 else 0)
      if numTraps ≠ 1 then
        .invalid ("only one trap can be specified per list item, but "
          ++ toString numTraps ++ " traps were found")
      else
        match t.trapType with
        | .filesystemHoneytokenTrap => t.filesystemHoneytoken.isValid
        | .httpEndpointTrap => .invalid "HttpEndpoint validation not implemented yet"
        | .httpPayloadTrap => .invalid "HttpPayload validation not implemented yet"
        | .unknownTrap => .invalid "trap type is unknown"
    | r => r

/-- A well-formed filesystem-honeytoken trap except that its single resource
filter carries a present-but-empty `Namespaces` list and a nil `Selector`. -/
def c10FailingTrap : Trap :=
  { filesystemHoneytoken :=
      { filePath := "/run/secrets/koney/service_token"
        fileContent := "someverysecrettoken"
        readOnly := true }
    httpEndpoint := {}
    httpPayload := {}
    decoyDeployment := { strategy := "containerExec" }
    captorDeployment := { strategy := "tetragon" }
    matchResources := { any := some [{ namespaces := some [], selector := none, containerSelector := "*" }] } }

/-- C10: `Trap.IsValid` is claimed to be total, returning the "both empty is
invalid" error on a filter with a present-but-empty `Namespaces` list and a
nil `Selector`.  The code instead dereferences the nil `Selector` pointer in
`len(value.Selector.MatchLabels)` and panics, so the claim describes the
intended behaviour and the code has a slip. -/
theorem c10_isValid_crashes_on_empty_namespaces_nil_selector :
    Trap.isValid c10FailingTrap = GoResult.crashNilDeref := by
  rfl

/-! ## internal/controller/traps/api: result taxonomy -/

/-- Mirrors `DecoyDeploymentResult` (internal/controller/traps/api).  The
joined `error` value is rendered as `Option String`. -/
structure DecoyDeploymentResult where
  trap : Option Trap
  atLeastOneObjectsWasMatched : Bool
  allObjectsWereReady : Bool
  errors : Option String
deriving DecidableEq, Repr

/-- Mirrors `DecoyDeploymentResult.ImpliesSuccess`. -/
def DecoyDeploymentResult.impliesSuccess (r : DecoyDeploymentResult) : Bool :=
  r.atLeastOneObjectsWasMatched && r.allObjectsWereReady && r.errors.isNone

/-- Mirrors `DecoyDeploymentResult.ImpliesFailure`. -/
def DecoyDeploymentResult.impliesFailure (r : DecoyDeploymentResult) : Bool :=
  r.errors.isSome

/-- Mirrors `DecoyDeploymentResult.ImpliesRetry`. -/
def DecoyDeploymentResult.impliesRetry (r : DecoyDeploymentResult) : Bool :=
  r.atLeastOneObjectsWasMatched && !r.allObjectsWereReady && r.errors.isNone

/-- Mirrors `CaptorDeploymentResult` (internal/controller/traps/api). -/
structure CaptorDeploymentResult where
  trap : Option Trap
  errors : Option String
  missingTetragon : Bool
deriving DecidableEq, Repr

/-- Mirrors `CaptorDeploymentResult.ImpliesSuccess`. -/
def CaptorDeploymentResult.impliesSuccess (r : CaptorDeploymentResult) : Bool :=
  r.errors.isNone

/-- Mirrors `CaptorDeploymentResult.ImpliesFailure`. -/
def CaptorDeploymentResult.impliesFailure (r : CaptorDeploymentResult) : Bool :=
  r.errors.isSome || r.missingTetragon

/-- Mirrors `CaptorDeploymentResult.ImpliesRetry` (constantly false). -/
def CaptorDeploymentResult.impliesRetry (_ : CaptorDeploymentResult) : Bool :=
  false

/-- A captor result with no errors but with the missing-Tetragon marker. -/
def c3MissingTetragonResult : CaptorDeploymentResult :=
  { trap := none, errors := none, missingTetragon := true }

/-- C3 counterexample: the uniform taxonomy does not hold for captor
results.  A captor result with no errors but `MissingTetragon` set has
`ImpliesFailure = true`, although the claim says `ImpliesFailure` is true
exactly when there is an error. -/
theorem c3_captor_taxonomy_not_uniform :
    ¬ (c3MissingTetragonResult.impliesFailure = true
        ↔ c3MissingTetragonResult.errors.isSome = true) := by
  decide

/-- C3 amended: decoy results satisfy the taxonomy exactly as claimed, but
captor results follow their own rules: `ImpliesSuccess` iff there are no
errors, `ImpliesFailure` iff there is an error or Tetragon is missing, and
`ImpliesRetry` is constantly false. -/
theorem c3_result_taxonomy :
    (∀ r : DecoyDeploymentResult,
      (r.impliesSuccess = true
        ↔ r.atLeastOneObjectsWasMatched = true ∧ r.allObjectsWereReady = true ∧ r.errors = none)
      ∧ (r.impliesFailure = true ↔ r.errors ≠ none)
      ∧ (r.impliesRetry = true
        ↔ r.atLeastOneObjectsWasMatched = true ∧ r.allObjectsWereReady = false ∧ r.errors = none))
    ∧ (∀ r : CaptorDeploymentResult,
      (r.impliesSuccess = true ↔ r.errors = none)
      ∧ (r.impliesFailure = true ↔ r.errors ≠ none ∨ r.missingTetragon = true)
      ∧ r.impliesRetry = false) := by
  constructor
  · intro r
    refine ⟨?_, ?_, ?_⟩
    · simp [DecoyDeploymentResult.impliesSuccess, Option.isNone_iff_eq_none, and_assoc]
    · simp [DecoyDeploymentResult.impliesFailure, Option.isSome_iff_ne_none]
    · cases h : r.allObjectsWereReady <;>
        simp [DecoyDeploymentResult.impliesRetry, h, Option.isNone_iff_eq_none]
  · intro r
    refine ⟨?_, ?_, rfl⟩
    · simp [CaptorDeploymentResult.impliesSuccess, Option.isNone_iff_eq_none]
    · simp [CaptorDeploymentResult.impliesFailure, Option.isSome_iff_ne_none]

/-! ## internal/controller: TrapReconcileResult, reconcile passes, conditions -/

/-- Mirrors `TrapReconcileResult` (decoys.go / captors.go part of the
controller package).  Counters are Go `int`s, hence `Int`. -/
structure TrapReconcileResult where
  numTraps : Int
  numSuccesses : Int
  numFailures : Int
  shouldRequeue : Bool
  overrideStatusConditionReason : String
  overrideStatusConditionMessage : String
  errors : Option String
deriving DecidableEq, Repr

/-- Mirrors `TrapReconcileResult.NumTries()` (successes + failures). -/
def TrapReconcileResult.numTries (r : TrapReconcileResult) : Int :=
  r.numSuccesses + r.numFailures

/-- Mirrors `TrapReconcileResult.NumSkipped()` (total − successes − failures). -/
def TrapReconcileResult.numSkipped (r : TrapReconcileResult) : Int :=
  r.numTraps - r.numSuccesses - r.numFailures

/-- The `TrapReconcileResult{NumTraps: ...}` literal that starts both
summarization loops (every other field is the Go zero value). -/
def initialReconcileResult (n : Int) : TrapReconcileResult :=
  { numTraps := n, numSuccesses := 0, numFailures := 0, shouldRequeue := false
    overrideStatusConditionReason := "", overrideStatusConditionMessage := ""
    errors := none }

/-- One iteration of the summarization loop in `reconcileDecoys`.  The Go
line `result.Errors = errors.Join(result.Errors, result.GetErrors())` writes
into the loop-local copy of the slice element and is therefore dropped; in
particular `reconcileResult.Errors` is never assigned anywhere in the loop. -/
def decoyLoopStep (acc : TrapReconcileResult) (result : DecoyDeploymentResult) :
    TrapReconcileResult :=
  let acc1 :=
    if result.impliesFailure then { acc with numFailures := acc.numFailures + 1 }
    else if result.impliesSuccess then { acc with numSuccesses := acc.numSuccesses + 1 }
    else acc
  if result.impliesRetry then { acc1 with shouldRequeue := true } else acc1

/-- The summarization loop of `reconcileDecoys`: `NumTraps` is the number of
reconciled traps, which equals the number of per-trap results. -/
def summarizeDecoyResults (results : List DecoyDeploymentResult) : TrapReconcileResult :=
  results.foldl decoyLoopStep (initialReconcileResult results.length)

/-- One iteration of the summarization loop in `reconcileCaptors`; as in
`decoyLoopStep`, the per-result errors are joined only into the loop-local
copy and never into the accumulator. -/
def captorLoopStep (acc : TrapReconcileResult) (result : CaptorDeploymentResult) :
    TrapReconcileResult :=
  let acc1 :=
    if result.impliesFailure then { acc with numFailures := acc.numFailures + 1 }
    else if result.impliesSuccess then { acc with numSuccesses := acc.numSuccesses + 1 }
    else acc
  let acc2 :=
    if result.missingTetragon then
      { acc1 with
        overrideStatusConditionReason := "TetragonNotInstalled"
        overrideStatusConditionMessage := "Cannot deploy captors without Tetragon" }
    else acc1
  if result.impliesRetry then { acc2 with shouldRequeue := true } else acc2

/-- The summarization loop of `reconcileCaptors`. -/
def summarizeCaptorResults (results : List CaptorDeploymentResult) : TrapReconcileResult :=
  results.foldl captorLoopStep (initialReconcileResult results.length)

/-- Mirrors `errors.Join` on two arguments: nil inputs are skipped, two
non-nil errors are joined. -/
def joinErrors (a b : Option String) : Option String :=
  match a, b with
  | none, b => b
  | some x, none => some x
  | some x, some y => some (x ++ "\n" ++ y)

/-- `constants.NormalFailureRetryInterval` (1 minute), in seconds. -/
def NormalFailureRetryInterval : Nat := 60

/-- `constants.ShortStatusCheckInterval` (10 seconds), in seconds. -/
def ShortStatusCheckInterval : Nat := 10

/-- The requeue decision at the end of `Reconcile` (deceptionpolicy
controller), on the path where all previous steps succeeded
(`reconcileErr == nil` before the deployment results are joined):
`shouldRequeue := decoyResult.ShouldRequeue || captorResult.ShouldRequeue`,
then errors win over requeue-for-retry, which wins over "done".  `none`
means no requeue. -/
def reconcileRequeueAfter (decoyResult captorResult : TrapReconcileResult) :
    Option Nat :=
  let shouldRequeue := decoyResult.shouldRequeue || captorResult.shouldRequeue
  let reconcileErr := joinErrors (joinErrors none decoyResult.errors) captorResult.errors
  if reconcileErr.isSome then some NormalFailureRetryInterval
  else if shouldRequeue then some ShortStatusCheckInterval
  else none

/-- A decoy deployment result that carries an error. -/
def c1ErroredDecoyResult : DecoyDeploymentResult :=
  { trap := none, atLeastOneObjectsWasMatched := true, allObjectsWereReady := true
    errors := some "honeytoken deployment failed: container exec error" }

/-- A decoy deployment result asking for a retry (matched, not all ready). -/
def c1RetryDecoyResult : DecoyDeploymentResult :=
  { trap := none, atLeastOneObjectsWasMatched := true, allObjectsWereReady := false
    errors := none }

/-- C1: the claim says a deployment result carrying an error makes
`Reconcile` requeue after `normalFailureInterval`.  In the code,
`reconcileDecoys` joins each result's errors only into the loop-local copy
(`result.Errors = errors.Join(result.Errors, result.GetErrors())`), so the
aggregated `TrapReconcileResult.Errors` stays nil, `Reconcile` sees no error
and returns *no* requeue for an errored result (first two conjuncts).  The
retry and success paths do behave as claimed (last two conjuncts). -/
theorem c1_deployment_error_never_triggers_requeue :
    c1ErroredDecoyResult.impliesFailure = true
    ∧ (summarizeDecoyResults [c1ErroredDecoyResult]).errors = none
    ∧ reconcileRequeueAfter (summarizeDecoyResults [c1ErroredDecoyResult])
        (summarizeCaptorResults []) = none
    ∧ reconcileRequeueAfter (summarizeDecoyResults [c1RetryDecoyResult])
        (summarizeCaptorResults []) = some ShortStatusCheckInterval
    ∧ reconcileRequeueAfter (summarizeDecoyResults []) (summarizeCaptorResults [])
        = none := by
  decide

/-! ## Status conditions (`conditions.go` of the controller package) -/

/-- Mirrors `metav1.ConditionStatus` (True / False / Unknown). -/
inductive ConditionStatus where
  | conditionTrue
  | conditionFalse
  | conditionUnknown
deriving DecidableEq, Repr

/-- Mirrors `DeceptionPolicyCondition`.  `LastTransitionTime` is omitted: it
is freshly set to `metav1.Now()` at every write and ignored by `Equals`. -/
structure DeceptionPolicyCondition where
  condType : String
  status : ConditionStatus
  reason : String
  message : String
deriving DecidableEq, Repr

/-- Mirrors `TrapDeploymentStatusReasonsEnum`. -/
structure TrapDeploymentStatusReasonsEnum where
  unknown : String
  success : String
  error : String
  partialSuccess : String
  noObjects : String
deriving DecidableEq, Repr

/-- Mirrors `TrapDeploymentStatusMessagesEnum`. -/
structure TrapDeploymentStatusMessagesEnum where
  noObjects : String
deriving DecidableEq, Repr

/-- Mirrors `TrapDeploymentStatusEnum`. -/
structure TrapDeploymentStatusEnum where
  objectName : String
  reasons : TrapDeploymentStatusReasonsEnum
  messages : TrapDeploymentStatusMessagesEnum
deriving DecidableEq, Repr

/-- Mirrors `DecoyDeployedStatusConditions` (conditions.go constants). -/
def DecoyDeployedStatusConditions : TrapDeploymentStatusEnum :=
  { objectName := "decoys"
    reasons :=
      { unknown := "DecoyDeploymentPending"
        success := "DecoyDeploymentSucceeded"
        partialSuccess := "DecoyDeploymentSucceededPartially"
        error := "DecoyDeploymentError"
        noObjects := "NoObjectsMatched" }
    messages := { noObjects := "No objects matching selection criteria" } }

/-- Mirrors `CaptorDeployedStatusConditions`. -/
def CaptorDeployedStatusConditions : TrapDeploymentStatusEnum :=
  { objectName := "captors"
    reasons :=
      { unknown := "CaptorDeploymentPending"
        success := "CaptorDeploymentSucceeded"
        partialSuccess := "CaptorDeploymentSucceededPartially"
        error := "CaptorDeploymentError"
        noObjects := "NoObjectsMatched" }
    messages := { noObjects := "No objects matching selection criteria" } }

/-- The staged `DecoysDeployed` condition before the decoy pass
(`Status=Unknown, Reason=DecoyDeploymentPending, Message=""`). -/
def decoysDeployedPendingCondition : DeceptionPolicyCondition :=
  { condType := "DecoysDeployed", status := .conditionUnknown
    reason := "DecoyDeploymentPending", message := "" }

/-- The `fmt.Sprintf` message of `translateReconcileResultToStatusCondition`:
`"%d/%d %s deployed (%d skipped)"`. -/
def deployedMessage (r : TrapReconcileResult) (objectName : String) : String :=
  toString r.numSuccesses ++ "/" ++ toString r.numTries ++ " " ++ objectName
    ++ " deployed (" ++ toString r.numSkipped ++ " skipped)"

/-- Mirrors `translateReconcileResultToStatusCondition` (deceptionpolicy
controller): when `NumTraps > 0`, set the counting message, then pick
status/reason by checking failures-or-errors first, then `NumTries == 0`,
then full success, then partial success; finally apply the override
reason/message if non-empty.  When `NumTraps == 0` the condition is left
untouched. -/
def translateReconcileResultToStatusCondition (result : TrapReconcileResult)
    (condition : DeceptionPolicyCondition) (fields : TrapDeploymentStatusEnum) :
    DeceptionPolicyCondition :=
  if result.numTraps > 0 then
    let c1 := { condition with message := deployedMessage result fields.objectName }
    let c2 :=
      if result.numFailures > 0 ∨ result.errors ≠ none then
        { c1 with status := .conditionFalse, reason := fields.reasons.error }
      else if result.numTries = 0 then
        { c1 with status := .conditionFalse, reason := fields.reasons.noObjects
                  message := fields.messages.noObjects }
      else if result.numSuccesses = result.numTraps then
        { c1 with status := .conditionTrue, reason := fields.reasons.success }
      else if result.numSuccesses = result.numTries then
        { c1 with status := .conditionTrue, reason := fields.reasons.partialSuccess }
      else c1
    let c3 :=
      if result.overrideStatusConditionReason ≠ "" then
        { c2 with reason := result.overrideStatusConditionReason }
      else c2
    if result.overrideStatusConditionMessage ≠ "" then
      { c3 with message := result.overrideStatusConditionMessage }
    else c3
  else condition

/-- One step of the decoy summarization loop never touches the errors,
override, or `NumTraps` fields of the accumulator. -/
theorem decoyLoopStep_constant_fields (acc : TrapReconcileResult)
    (r : DecoyDeploymentResult) :
    (decoyLoopStep acc r).errors = acc.errors
    ∧ (decoyLoopStep acc r).overrideStatusConditionReason = acc.overrideStatusConditionReason
    ∧ (decoyLoopStep acc r).overrideStatusConditionMessage = acc.overrideStatusConditionMessage
    ∧ (decoyLoopStep acc r).numTraps = acc.numTraps := by
  refine ⟨?_, ?_, ?_, ?_⟩ <;>
    · simp only [decoyLoopStep]
      split_ifs <;> rfl

/-- The decoy summarization loop never sets errors, overrides, or changes
`NumTraps`. -/
theorem foldl_decoyLoopStep_constant (rs : List DecoyDeploymentResult) :
    ∀ acc : TrapReconcileResult,
      (rs.foldl decoyLoopStep acc).errors = acc.errors
      ∧ (rs.foldl decoyLoopStep acc).overrideStatusConditionReason
          = acc.overrideStatusConditionReason
      ∧ (rs.foldl decoyLoopStep acc).overrideStatusConditionMessage
          = acc.overrideStatusConditionMessage
      ∧ (rs.foldl decoyLoopStep acc).numTraps = acc.numTraps := by
  induction rs with
  | nil => intro acc; simp
  | cons r rs ih =>
    intro acc
    obtain ⟨h1, h2, h3, h4⟩ := ih (decoyLoopStep acc r)
    obtain ⟨g1, g2, g3, g4⟩ := decoyLoopStep_constant_fields acc r
    simp only [List.foldl_cons]
    exact ⟨h1.trans g1, h2.trans g2, h3.trans g3, h4.trans g4⟩

/-- Field facts about the aggregated decoy result: errors stay nil (the
loop-local join is dropped), overrides stay empty, `NumTraps` is the number
of reconciled traps. -/
theorem summarizeDecoyResults_fields (results : List DecoyDeploymentResult) :
    (summarizeDecoyResults results).errors = none
    ∧ (summarizeDecoyResults results).overrideStatusConditionReason = ""
    ∧ (summarizeDecoyResults results).overrideStatusConditionMessage = ""
    ∧ (summarizeDecoyResults results).numTraps = results.length := by
  have h := foldl_decoyLoopStep_constant results (initialReconcileResult results.length)
  simpa [summarizeDecoyResults, initialReconcileResult] using h

/-- Case analysis of `translateReconcileResultToStatusCondition` on an
aggregated result whose errors and overrides are empty (as produced by the
decoy pass). -/
theorem translate_summary_cases (r : TrapReconcileResult)
    (condition : DeceptionPolicyCondition) (fields : TrapDeploymentStatusEnum)
    (herr : r.errors = none)
    (hor1 : r.overrideStatusConditionReason = "")
    (hor2 : r.overrideStatusConditionMessage = "")
    (hpos : 0 < r.numTraps) :
    (0 < r.numFailures →
      translateReconcileResultToStatusCondition r condition fields =
        { condType := condition.condType, status := .conditionFalse
          reason := fields.reasons.error, message := deployedMessage r fields.objectName })
    ∧ (r.numFailures = 0 → r.numSuccesses = 0 →
      translateReconcileResultToStatusCondition r condition fields =
        { condType := condition.condType, status := .conditionFalse
          reason := fields.reasons.noObjects, message := fields.messages.noObjects })
    ∧ (r.numFailures = 0 → r.numSuccesses = r.numTraps →
      translateReconcileResultToStatusCondition r condition fields =
        { condType := condition.condType, status := .conditionTrue
          reason := fields.reasons.success, message := deployedMessage r fields.objectName })
    ∧ (r.numFailures = 0 → 0 < r.numSuccesses → r.numSuccesses < r.numTraps →
      translateReconcileResultToStatusCondition r condition fields =
        { condType := condition.condType, status := .conditionTrue
          reason := fields.reasons.partialSuccess
          message := deployedMessage r fields.objectName }) := by
  obtain ⟨ct, cs, cr, cm⟩ := condition
  refine ⟨fun hf => ?_, fun hf hs => ?_, fun hf hs => ?_, fun hf hs1 hs2 => ?_⟩ <;>
    · simp only [translateReconcileResultToStatusCondition,
        TrapReconcileResult.numTries, herr, hor1, hor2, gt_iff_lt, ne_eq,
        not_true, if_false, ite_false, reduceIte, not_false_iff]
      rw [if_pos hpos]
      split_ifs with h1 h2 <;> first
        | rfl
        | (exfalso; revert h1; simp; omega)

/-- C2 counterexample: a reconciliation pass over zero valid traps has
`numTries == 0`, so the claim demands a `False/NoObjectsMatched` condition
with the standard message; the code's `translateReconcileResultToStatusCondition`
does nothing when `NumTraps == 0` and leaves the staged
`Unknown/DecoyDeploymentPending` condition in place. -/
theorem c2_empty_pass_leaves_condition_pending :
    translateReconcileResultToStatusCondition (summarizeDecoyResults [])
        decoysDeployedPendingCondition DecoyDeployedStatusConditions
      = decoysDeployedPendingCondition
    ∧ translateReconcileResultToStatusCondition (summarizeDecoyResults [])
        decoysDeployedPendingCondition DecoyDeployedStatusConditions
      ≠ { condType := "DecoysDeployed", status := .conditionFalse
          reason := "NoObjectsMatched"
          message := "No objects matching selection criteria" } := by
  decide

/-- C2 amended: mapping of the aggregated decoy result to the
`DecoysDeployed` condition, for a pass over at least one valid trap (with
zero traps the condition is left untouched, first conjunct).  Failures are
checked first (including joined errors, which the aggregation in fact always
leaves nil), then `numTries == 0` gives `False/NoObjectsMatched` with the
standard message, then `successes == total` gives `True` with the success
reason, then `successes == numTries < total` gives `True` with the partial
success reason; all but the no-objects case carry the
`"{successes}/{numTries} decoys deployed ({skipped} skipped)"` message. -/
theorem c2_decoys_condition_mapping (results : List DecoyDeploymentResult)
    (condition : DeceptionPolicyCondition) :
    (results = [] →
      translateReconcileResultToStatusCondition (summarizeDecoyResults results)
        condition DecoyDeployedStatusConditions = condition)
    ∧ (results ≠ [] → 0 < (summarizeDecoyResults results).numFailures →
      translateReconcileResultToStatusCondition (summarizeDecoyResults results)
        condition DecoyDeployedStatusConditions =
        { condType := condition.condType, status := .conditionFalse
          reason := "DecoyDeploymentError"
          message := deployedMessage (summarizeDecoyResults results) "decoys" })
    ∧ (results ≠ [] → (summarizeDecoyResults results).numFailures = 0 →
        (summarizeDecoyResults results).numSuccesses = 0 →
      translateReconcileResultToStatusCondition (summarizeDecoyResults results)
        condition DecoyDeployedStatusConditions =
        { condType := condition.condType, status := .conditionFalse
          reason := "NoObjectsMatched"
          message := "No objects matching selection criteria" })
    ∧ (results ≠ [] → (summarizeDecoyResults results).numFailures = 0 →
        (summarizeDecoyResults results).numSuccesses = (results.length : Int) →
      translateReconcileResultToStatusCondition (summarizeDecoyResults results)
        condition DecoyDeployedStatusConditions =
        { condType := condition.condType, status := .conditionTrue
          reason := "DecoyDeploymentSucceeded"
          message := deployedMessage (summarizeDecoyResults results) "decoys" })
    ∧ (results ≠ [] → (summarizeDecoyResults results).numFailures = 0 →
        0 < (summarizeDecoyResults results).numSuccesses →
        (summarizeDecoyResults results).numSuccesses < (results.length : Int) →
      translateReconcileResultToStatusCondition (summarizeDecoyResults results)
        condition DecoyDeployedStatusConditions =
        { condType := condition.condType, status := .conditionTrue
          reason := "DecoyDeploymentSucceededPartially"
          message := deployedMessage (summarizeDecoyResults results) "decoys" }) := by
  obtain ⟨herr, hor1, hor2, hn⟩ := summarizeDecoyResults_fields results
  refine ⟨?_, ?_, ?_, ?_, ?_⟩
  · rintro rfl
    rfl
  · intro hne hf
    have hpos : 0 < (summarizeDecoyResults results).numTraps := by
      rw [hn]; exact_mod_cast List.length_pos.mpr hne
    exact (translate_summary_cases _ condition DecoyDeployedStatusConditions
      herr hor1 hor2 hpos).1 hf
  · intro hne hf hs
    have hpos : 0 < (summarizeDecoyResults results).numTraps := by
      rw [hn]; exact_mod_cast List.length_pos.mpr hne
    exact (translate_summary_cases _ condition DecoyDeployedStatusConditions
      herr hor1 hor2 hpos).2.1 hf hs
  · intro hne hf hs
    have hpos : 0 < (summarizeDecoyResults results).numTraps := by
      rw [hn]; exact_mod_cast List.length_pos.mpr hne
    exact (translate_summary_cases _ condition DecoyDeployedStatusConditions
      herr hor1 hor2 hpos).2.2.1 hf (by rw [hn]; exact hs)
  · intro hne hf hs1 hs2
    have hpos : 0 < (summarizeDecoyResults results).numTraps := by
      rw [hn]; exact_mod_cast List.length_pos.mpr hne
    exact (translate_summary_cases _ condition DecoyDeployedStatusConditions
      herr hor1 hor2 hpos).2.2.2 hf hs1 (by rw [hn]; exact hs2)

/-- A decoy result that was matched but not ready (neither success nor
failure): contributes to no counter. -/
def c2SkippedDecoyResult : DecoyDeploymentResult :=
  { trap := none, atLeastOneObjectsWasMatched := true, allObjectsWereReady := false
    errors := none }

/-- C2 witness: a one-trap pass whose single result is skipped lands in the
`False/NoObjectsMatched` case with the standard message. -/
theorem c2_decoys_condition_mapping_witness :
    translateReconcileResultToStatusCondition
        (summarizeDecoyResults [c2SkippedDecoyResult])
        decoysDeployedPendingCondition DecoyDeployedStatusConditions
      = { condType := "DecoysDeployed", status := .conditionFalse
          reason := "NoObjectsMatched"
          message := "No objects matching selection criteria" } :=
  (c2_decoys_condition_mapping [c2SkippedDecoyResult]
      decoysDeployedPendingCondition).2.2.1
    (by decide) (by decide) (by decide)

/-! ## internal/controller/annotations: the per-workload ledger

The Go code stores the ledger as a JSON string under the fixed key
`koney/changes` in the workload's annotation map.  The embedding works at
the decoded level: `Option (List ChangeRecord)` is the (possibly absent)
decoded value of that key; `encoding/json` round-tripping is treated as the
identity of the codec boundary.  Go's `TrapAnnotation`/`ChangeAnnotation`
are rendered as `TrapRecord`/`ChangeRecord`. -/

/-- Modelled from the spec: `utils.Hash` is repository code that is not
under src/ (only its callers are).  The spec says "Hash is a stable
byte-digest of the content string" (an MD5 hex digest per the record docs).
It is modelled as an injective deterministic encoding of the string:
determinism and distinctness of digests are the only properties the claims
exercise, and real-world hash collisions are ignored. -/
def Hash (s : String) : String := "digest-" ++ s

/-- The modelled digest is injective. -/
theorem Hash_injective {a b : String} (h : Hash a = Hash b) : a = b := by
  have h2 : "digest-".data ++ a.data = "digest-".data ++ b.data := by
    have := congrArg String.data h
    simpa [Hash, String.data_append] using this
  exact String.ext (List.append_cancel_left h2)

/-- The modelled digest is never the empty string. -/
theorem Hash_ne_empty (s : String) : Hash s ≠ "" := by
  intro h
  have h2 := congrArg (fun t => t.data.length) h
  simp [Hash, String.data_append] at h2

/-- Mirrors `FilesystemHoneytokenAnnotation` (filePath, fileContentHash,
readOnly). -/
structure FilesystemHoneytokenRecord where
  filePath : String
  fileContentHash : String
  readOnly : Bool
deriving DecidableEq, Repr

/-- Mirrors `HttpEndpointAnnotation` (no fields yet). -/
structure HttpEndpointRecord where
deriving DecidableEq, Repr

/-- Mirrors `HttpPayloadAnnotation` (no fields yet). -/
structure HttpPayloadRecord where
deriving DecidableEq, Repr

/-- Mirrors `TrapAnnotation` (api/v1alpha1/annotation_types.go). -/
structure TrapRecord where
  deploymentStrategy : String
  containers : List String
  createdAt : String
  updatedAt : String
  filesystemHoneytoken : FilesystemHoneytokenRecord
  httpEndpoint : HttpEndpointRecord
  httpPayload : HttpPayloadRecord
deriving DecidableEq, Repr

/-- Mirrors `ChangeAnnotation` (policy name plus its trap records). -/
structure ChangeRecord where
  deceptionPolicyName : String
  traps : List TrapRecord
deriving DecidableEq, Repr

/-- The zero value `FilesystemHoneytokenAnnotation{}`. -/
def zeroFilesystemHoneytokenRecord : FilesystemHoneytokenRecord :=
  { filePath := "", fileContentHash := "", readOnly := false }

/-- Mirrors `TrapAnnotation.TrapType()`: the populated variant wins; the
field-less variants can never be "populated". -/
def TrapRecord.trapType (r : TrapRecord) : TrapType :=
  if r.filesystemHoneytoken ≠ zeroFilesystemHoneytokenRecord then .filesystemHoneytokenTrap
  else if r.httpEndpoint ≠ HttpEndpointRecord.mk then .httpEndpointTrap
  else if r.httpPayload ≠ HttpPayloadRecord.mk then .httpPayloadTrap
  else .unknownTrap

/-- Mirrors `FilesystemHoneytokenAnnotation.Equals` (the pointer-identity
fast path is subsumed by value semantics). -/
def fsRecordEquals (a b : FilesystemHoneytokenRecord) : Bool :=
  if a.filePath ≠ b.filePath then false
  else if a.fileContentHash ≠ b.fileContentHash then false
  else if a.readOnly ≠ b.readOnly then false
  else true

/-- Mirrors `TrapAnnotation.Equals` (equality excluding the timestamps, and
excluding the container lists when `ignoreContainers` is set; Go compares
the container slices by length and then element-wise, i.e. list equality). -/
def TrapRecord.equals (a b : TrapRecord) (ignoreContainers : Bool) : Bool :=
  if a.deploymentStrategy ≠ b.deploymentStrategy then false
  else if ignoreContainers = false ∧ a.containers ≠ b.containers then false
  else
    match a.trapType with
    | .filesystemHoneytokenTrap => fsRecordEquals a.filesystemHoneytoken b.filesystemHoneytoken
    | .httpEndpointTrap => true
    | .httpPayloadTrap => true
    | .unknownTrap => false

/-- Mirrors `AreTheSameTrap` (annotations.go): same deployment strategy,
same trap type, and for filesystem honeytokens the same
(filePath, hash(content), readOnly); the container list is ignored. -/
def areTheSameTrap (annotationTrap : TrapRecord) (trap : Trap) : Bool :=
  if annotationTrap.deploymentStrategy ≠ trap.decoyDeployment.strategy then false
  else if annotationTrap.trapType ≠ trap.trapType then false
  else
    match trap.trapType with
    | .filesystemHoneytokenTrap =>
      if annotationTrap.filesystemHoneytoken.filePath ≠ trap.filesystemHoneytoken.filePath then
        false
      else if annotationTrap.filesystemHoneytoken.fileContentHash
          ≠ Hash trap.filesystemHoneytoken.fileContent then false
      else if annotationTrap.filesystemHoneytoken.readOnly
          ≠ trap.filesystemHoneytoken.readOnly then false
      else true
    | .httpEndpointTrap => false
    | .httpPayloadTrap => false
    | .unknownTrap => false

/-- Mirrors `convertTrapToTrapAnnotation` (annotations.go): build the record
for the trap's kind with `createdAt = now`, or fail for an unknown kind. -/
def convertTrapToTrapRecord (trap : Trap) (containers : List String) (now : String) :
    Except String TrapRecord :=
  let base : TrapRecord :=
    { deploymentStrategy := trap.decoyDeployment.strategy
      containers := containers, createdAt := now, updatedAt := ""
      filesystemHoneytoken := zeroFilesystemHoneytokenRecord
      httpEndpoint := {}, httpPayload := {} }
  match trap.trapType with
  | .filesystemHoneytokenTrap =>
    .ok { base with
      filesystemHoneytoken :=
        { filePath := trap.filesystemHoneytoken.filePath
          fileContentHash := Hash trap.filesystemHoneytoken.fileContent
          readOnly := trap.filesystemHoneytoken.readOnly } }
  | .httpEndpointTrap => .ok { base with httpEndpoint := {} }
  | .httpPayloadTrap => .ok { base with httpPayload := {} }
  | .unknownTrap => .error "unknown trap type"

/-- The break-on-first-match update loop shared by `AddTrapToAnnotations`
(matching by `AreTheSameTrap`) and `UpdateContainersInAnnotations` (matching
by `Equals` ignoring containers): refresh `updatedAt` and replace the
container list of the first matching record. -/
def updateFirstMatchingRecord (isMatch : TrapRecord → Bool) (containers : List String)
    (now : String) : List TrapRecord → List TrapRecord
  | [] => []
  | r :: rs =>
    if isMatch r then { r with updatedAt := now, containers := containers } :: rs
    else r :: updateFirstMatchingRecord isMatch containers now rs

/-- The per-change body of the `AddTrapToAnnotations` loop: for the matching
policy, refresh the record that is the same trap, or append the freshly
converted record. -/
def addProcessedChange (crdName : String) (trap : Trap) (annotationTrap : TrapRecord)
    (containers : List String) (now : String) (change : ChangeRecord) : ChangeRecord :=
  if change.deceptionPolicyName = crdName then
    if change.traps.any (fun r => areTheSameTrap r trap) then
      { change with
        traps := updateFirstMatchingRecord (fun r => areTheSameTrap r trap)
          containers now change.traps }
    else { change with traps := change.traps ++ [annotationTrap] }
  else change

/-- Mirrors `AddTrapToAnnotations` (annotations.go) at the decoded level:
update the matching record in the policy's change (or append a fresh one),
or append a whole new change when the policy has none.  The workload itself
is not persisted here. -/
def addTrapToAnnotationsOk (oldChanges : List ChangeRecord) (crdName : String)
    (trap : Trap) (annotationTrap : TrapRecord) (containers : List String)
    (now : String) : List ChangeRecord :=
  if oldChanges.any (fun change => change.deceptionPolicyName = crdName) then
    oldChanges.map (addProcessedChange crdName trap annotationTrap containers now)
  else
    oldChanges.map (addProcessedChange crdName trap annotationTrap containers now)
      ++ [{ deceptionPolicyName := crdName, traps := [annotationTrap] }]

/-- Entry point of `AddTrapToAnnotations`: convert the trap, then run the
change-list rewrite above. -/
def addTrapToAnnotations (ann : Option (List ChangeRecord)) (crdName : String)
    (trap : Trap) (containers : List String) (now : String) :
    Except String (List ChangeRecord) :=
  match convertTrapToTrapRecord trap containers now with
  | .error e => .error e
  | .ok annotationTrap =>
    .ok (addTrapToAnnotationsOk (ann.getD []) crdName trap annotationTrap containers now)

/-- The per-change body of the `UpdateContainersInAnnotations` loop: for the
matching policy, refresh the first record equal to the given one (ignoring
containers), or append the given record with `createdAt = now` and the new
container list. -/
def updateProcessedChange (crdName : String) (rec : TrapRecord)
    (containers : List String) (now : String) (change : ChangeRecord) : ChangeRecord :=
  if change.deceptionPolicyName = crdName then
    if change.traps.any (fun r => r.equals rec true) then
      { change with
        traps := updateFirstMatchingRecord (fun r => r.equals rec true)
          containers now change.traps }
    else
      { change with
        traps := change.traps ++ [{ rec with createdAt := now, containers := containers }] }
  else change

/-- Mirrors `UpdateContainersInAnnotations` (annotations.go) at the decoded
level. -/
def updateContainersInAnnotations (ann : Option (List ChangeRecord)) (crdName : String)
    (rec : TrapRecord) (containers : List String) (now : String) : List ChangeRecord :=
  (ann.getD []).map (updateProcessedChange crdName rec containers now)

/-- The per-change body of the `RemoveTrapAnnotations` loop: for the matching
policy, keep only the trap records that are not equal (containers included)
to the removed one. -/
def removeProcessedChange (crdName : String) (rec : TrapRecord)
    (change : ChangeRecord) : ChangeRecord :=
  if change.deceptionPolicyName = crdName then
    { change with traps := change.traps.filter (fun r => !(r.equals rec false)) }
  else change

/-- The `newAnnotationChanges` list built by the loop of
`RemoveTrapAnnotations`: filter the removed record out of the matching
policy's changes, and keep only changes that still have traps. -/
def removeSurvivingChanges (ann : Option (List ChangeRecord)) (crdName : String)
    (rec : TrapRecord) : List ChangeRecord :=
  (ann.getD []).filterMap (fun change =>
    if (removeProcessedChange crdName rec change).traps.isEmpty then none
    else some (removeProcessedChange crdName rec change))

/-- Mirrors `RemoveTrapAnnotations` (annotations.go) at the decoded level:
drop from the policy's change every record equal to the given one (containers
included), drop change records left without traps, and delete the
annotation key (`none`) when no change records remain at all. -/
def removeTrapAnnotations (ann : Option (List ChangeRecord)) (crdName : String)
    (rec : TrapRecord) : Option (List ChangeRecord) :=
  if (removeSurvivingChanges ann crdName rec).isEmpty then none
  else some (removeSurvivingChanges ann crdName rec)

/-- The field-less HTTP variants can never be "populated", so `TrapType()`
only ever answers filesystem-honeytoken or unknown. -/
theorem trapType_cases (t : Trap) :
    t.trapType = .filesystemHoneytokenTrap ∨ t.trapType = .unknownTrap := by
  unfold Trap.trapType
  split_ifs with h1 h2 h3
  · exact Or.inl rfl
  · exact absurd rfl h2
  · exact absurd rfl h3
  · exact Or.inr rfl

/-- Characterization of `AreTheSameTrap`: it answers true exactly for a
filesystem-honeytoken trap and a filesystem-honeytoken record agreeing on
strategy, file path, content hash and read-only flag. -/
theorem areTheSameTrap_iff (r : TrapRecord) (t : Trap) :
    areTheSameTrap r t = true ↔
      t.trapType = .filesystemHoneytokenTrap
      ∧ r.trapType = .filesystemHoneytokenTrap
      ∧ r.deploymentStrategy = t.decoyDeployment.strategy
      ∧ r.filesystemHoneytoken.filePath = t.filesystemHoneytoken.filePath
      ∧ r.filesystemHoneytoken.fileContentHash = Hash t.filesystemHoneytoken.fileContent
      ∧ r.filesystemHoneytoken.readOnly = t.filesystemHoneytoken.readOnly := by
  unfold areTheSameTrap
  rcases trapType_cases t with htt | htt <;> rw [htt] <;> split_ifs <;> simp_all

/-- C4: trap identity.  (1) Reflexivity: every record derived from a trap by
`convertTrapToTrapAnnotation` is the same trap as the trap it came from.
(2) `AreTheSameTrap` can only answer true when strategy, file path, content
hash and read-only flag all agree — so it answers false whenever any of them
differs.  (3) The record's container list never affects the result. -/
theorem c4_trap_identity :
    (∀ (t : Trap) (cs : List String) (now : String) (r : TrapRecord),
        convertTrapToTrapRecord t cs now = .ok r → areTheSameTrap r t = true)
    ∧ (∀ (r : TrapRecord) (t : Trap), areTheSameTrap r t = true →
        r.deploymentStrategy = t.decoyDeployment.strategy
        ∧ r.filesystemHoneytoken.filePath = t.filesystemHoneytoken.filePath
        ∧ r.filesystemHoneytoken.fileContentHash = Hash t.filesystemHoneytoken.fileContent
        ∧ r.filesystemHoneytoken.readOnly = t.filesystemHoneytoken.readOnly)
    ∧ (∀ (r : TrapRecord) (t : Trap) (cs : List String),
        areTheSameTrap { r with containers := cs } t = areTheSameTrap r t) := by
  refine ⟨?_, ?_, ?_⟩
  · intro t cs now r hconv
    rcases trapType_cases t with htt | htt
    · simp only [convertTrapToTrapRecord, htt] at hconv
      cases hconv
      rw [areTheSameTrap_iff]
      refine ⟨htt, ?_, rfl, rfl, rfl, rfl⟩
      simp only [TrapRecord.trapType]
      rw [if_pos]
      intro hzero
      have : Hash t.filesystemHoneytoken.fileContent = "" := by
        have := congrArg FilesystemHoneytokenRecord.fileContentHash hzero
        simpa [zeroFilesystemHoneytokenRecord] using this
      exact Hash_ne_empty _ this
    · simp [convertTrapToTrapRecord, htt] at hconv
  · intro r t h
    have := (areTheSameTrap_iff r t).mp h
    exact ⟨this.2.2.1, this.2.2.2.1, this.2.2.2.2.1, this.2.2.2.2.2⟩
  · intro r t cs
    cases r
    rfl

/-- A sample filesystem-honeytoken trap. -/
def c4SampleTrap : Trap :=
  { filesystemHoneytoken :=
      { filePath := "/etc/secret/token", fileContent := "x", readOnly := true }
    httpEndpoint := {}
    httpPayload := {}
    decoyDeployment := { strategy := "volumeMount" }
    captorDeployment := { strategy := "tetragon" }
    matchResources := { any := some [{ namespaces := some ["koney"], selector := none, containerSelector := "*" }] } }

/-- The record `convertTrapToTrapAnnotation` derives from `c4SampleTrap`. -/
def c4SampleRecord : TrapRecord :=
  { deploymentStrategy := "volumeMount", containers := ["app"]
    createdAt := "2025-01-01T00:00:00Z", updatedAt := ""
    filesystemHoneytoken :=
      { filePath := "/etc/secret/token", fileContentHash := Hash "x", readOnly := true }
    httpEndpoint := {}, httpPayload := {} }

/-- C4 witness: reflexivity evaluated on the sample trap. -/
theorem c4_trap_identity_witness :
    areTheSameTrap c4SampleRecord c4SampleTrap = true :=
  c4_trap_identity.1 c4SampleTrap ["app"] "2025-01-01T00:00:00Z" c4SampleRecord rfl


/-- A record `t` is in the (decoded, possibly absent) ledger under policy
`Q`. -/
def trapMem (ann : Option (List ChangeRecord)) (Q : String) (t : TrapRecord) : Prop :=
  ∃ ch ∈ ann.getD [], ch.deceptionPolicyName = Q ∧ t ∈ ch.traps

/-- Same membership for a plain change list. -/
def trapMemList (l : List ChangeRecord) (Q : String) (t : TrapRecord) : Prop :=
  ∃ ch ∈ l, ch.deceptionPolicyName = Q ∧ t ∈ ch.traps

/-- Processing a change for removal keeps its policy name. -/
theorem removeProcessedChange_name (P : String) (R : TrapRecord) (ch : ChangeRecord) :
    (removeProcessedChange P R ch).deceptionPolicyName = ch.deceptionPolicyName := by
  unfold removeProcessedChange
  split <;> rfl

/-- Membership in a processed change's traps: the record survives iff it was
there and is not the removed one (for the matching policy). -/
theorem removeProcessedChange_mem (P : String) (R : TrapRecord) (ch : ChangeRecord)
    (t : TrapRecord) :
    t ∈ (removeProcessedChange P R ch).traps
      ↔ t ∈ ch.traps ∧ ¬(ch.deceptionPolicyName = P ∧ t.equals R false = true) := by
  unfold removeProcessedChange
  split
  · rename_i hP
    rw [List.mem_filter]
    simp [hP]
  · rename_i hP
    simp [hP]

/-- Membership in the surviving-changes list. -/
theorem removeSurvivingChanges_mem (ann : Option (List ChangeRecord)) (P : String)
    (R : TrapRecord) (ch' : ChangeRecord) :
    ch' ∈ removeSurvivingChanges ann P R
      ↔ ∃ ch ∈ ann.getD [], (removeProcessedChange P R ch).traps ≠ []
          ∧ ch' = removeProcessedChange P R ch := by
  unfold removeSurvivingChanges
  rw [List.mem_filterMap]
  constructor
  · rintro ⟨ch, hch, hf⟩
    split at hf
    · exact absurd hf (by simp)
    · rename_i hne
      cases hf
      exact ⟨ch, hch, fun h => hne (by rw [List.isEmpty_iff]; exact h), rfl⟩
  · rintro ⟨ch, hch, hne, rfl⟩
    refine ⟨ch, hch, ?_⟩
    rw [if_neg]
    intro h
    exact hne ((List.isEmpty_iff).mp h)

/-- Record-level membership across `RemoveTrapAnnotations`'s surviving list. -/
theorem removeSurvivingChanges_trapMem (ann : Option (List ChangeRecord)) (P : String)
    (R : TrapRecord) (Q : String) (t : TrapRecord) :
    trapMemList (removeSurvivingChanges ann P R) Q t
      ↔ trapMem ann Q t ∧ ¬(Q = P ∧ t.equals R false = true) := by
  unfold trapMemList trapMem
  constructor
  · rintro ⟨ch', hch', hname, hmem⟩
    rw [removeSurvivingChanges_mem] at hch'
    obtain ⟨ch, hch, -, rfl⟩ := hch'
    rw [removeProcessedChange_name] at hname
    rw [removeProcessedChange_mem] at hmem
    refine ⟨⟨ch, hch, hname, hmem.1⟩, ?_⟩
    rw [← hname]
    exact hmem.2
  · rintro ⟨⟨ch, hch, hname, hmem⟩, hnot⟩
    refine ⟨removeProcessedChange P R ch, ?_, ?_, ?_⟩
    · rw [removeSurvivingChanges_mem]
      refine ⟨ch, hch, ?_, rfl⟩
      intro hnil
      have : t ∈ (removeProcessedChange P R ch).traps := by
        rw [removeProcessedChange_mem]
        exact ⟨hmem, by rw [hname]; exact hnot⟩
      rw [hnil] at this
      exact absurd this (List.not_mem_nil t)
    · rw [removeProcessedChange_name]
      exact hname
    · rw [removeProcessedChange_mem]
      exact ⟨hmem, by rw [hname]; exact hnot⟩

/-- Every change in the surviving list still has traps. -/
theorem removeSurvivingChanges_traps_ne_nil (ann : Option (List ChangeRecord))
    (P : String) (R : TrapRecord) (ch : ChangeRecord)
    (h : ch ∈ removeSurvivingChanges ann P R) : ch.traps ≠ [] := by
  rw [removeSurvivingChanges_mem] at h
  obtain ⟨ch0, -, hne, rfl⟩ := h
  exact hne

/-- C8: `RemoveTrapAnnotations` removes exactly the records of `P`'s change
that equal the given record on both identity and container list
(`Equals` with the containers compared); change records left without traps
are dropped; and the annotation key is deleted (`none`) exactly when no
change record remains, otherwise the surviving list is written back. -/
theorem c8_remove_trap_records (ann : Option (List ChangeRecord)) (P : String)
    (R : TrapRecord) :
    (∀ (Q : String) (t : TrapRecord),
      trapMem (removeTrapAnnotations ann P R) Q t
        ↔ trapMem ann Q t ∧ ¬(Q = P ∧ t.equals R false = true))
    ∧ (∀ l, removeTrapAnnotations ann P R = some l → ∀ ch ∈ l, ch.traps ≠ [])
    ∧ (removeTrapAnnotations ann P R = none ↔
        ∀ (Q : String) (t : TrapRecord),
          trapMem ann Q t → Q = P ∧ t.equals R false = true) := by
  refine ⟨?_, ?_, ?_⟩
  · intro Q t
    unfold removeTrapAnnotations
    split
    · rename_i hempty
      rw [List.isEmpty_iff] at hempty
      rw [← removeSurvivingChanges_trapMem ann P R Q t]
      unfold trapMem trapMemList
      rw [hempty]
      simp
    · exact removeSurvivingChanges_trapMem ann P R Q t
  · intro l hl ch hch
    unfold removeTrapAnnotations at hl
    split at hl
    · exact absurd hl (by simp)
    · cases hl
      exact removeSurvivingChanges_traps_ne_nil ann P R ch hch
  · unfold removeTrapAnnotations
    constructor
    · intro hnone Q t hmemt
      split at hnone
      · rename_i hempty
        rw [List.isEmpty_iff] at hempty
        by_contra hnot
        have hm := (removeSurvivingChanges_trapMem ann P R Q t).mpr ⟨hmemt, hnot⟩
        unfold trapMemList at hm
        rw [hempty] at hm
        obtain ⟨ch, hch, -, -⟩ := hm
        exact absurd hch (List.not_mem_nil ch)
      · exact absurd hnone (by simp)
    · intro hall
      rw [if_pos]
      rw [List.isEmpty_iff]
      by_contra hne
      obtain ⟨ch, hch⟩ := List.exists_mem_of_ne_nil _ hne
      obtain ⟨t, ht⟩ :=
        List.exists_mem_of_ne_nil _ (removeSurvivingChanges_traps_ne_nil ann P R ch hch)
      have hm : trapMemList (removeSurvivingChanges ann P R) ch.deceptionPolicyName t :=
        ⟨ch, hch, rfl, ht⟩
      rw [removeSurvivingChanges_trapMem ann P R ch.deceptionPolicyName t] at hm
      exact hm.2 (hall _ _ hm.1)

/-- A ledger record that survives the sample removal. -/
def c8RecordKeep : TrapRecord :=
  { deploymentStrategy := "containerExec", containers := ["nginx"]
    createdAt := "2025-01-01T00:00:00Z", updatedAt := ""
    filesystemHoneytoken :=
      { filePath := "/run/a", fileContentHash := Hash "a", readOnly := true }
    httpEndpoint := {}, httpPayload := {} }

/-- The ledger record removed in the sample. -/
def c8RecordDrop : TrapRecord :=
  { deploymentStrategy := "containerExec", containers := ["nginx"]
    createdAt := "2025-01-01T00:00:00Z", updatedAt := ""
    filesystemHoneytoken :=
      { filePath := "/run/b", fileContentHash := Hash "b", readOnly := true }
    httpEndpoint := {}, httpPayload := {} }

/-- C8 witness: removing one of two records from a one-policy ledger keeps
the surviving change, whose trap list the theorem certifies non-empty. -/
theorem c8_remove_trap_records_witness :
    ({ deceptionPolicyName := "demo-policy", traps := [c8RecordKeep] } : ChangeRecord).traps ≠ [] :=
  (c8_remove_trap_records
      (some [{ deceptionPolicyName := "demo-policy", traps := [c8RecordKeep, c8RecordDrop] }])
      "demo-policy" c8RecordDrop).2.1
    [{ deceptionPolicyName := "demo-policy", traps := [c8RecordKeep] }] (by rfl)
    { deceptionPolicyName := "demo-policy", traps := [c8RecordKeep] } (by simp)

/-! ## C9: the at-most-one-record-per-(policy, identity) invariant -/

/-- Trap identity on ledger records, as the source compares it:
`TrapAnnotation.Equals` ignoring the container lists (timestamps are never
compared). -/
def sameTrapIdentity (a b : TrapRecord) : Bool := a.equals b true

/-- Spec invariant 1: on a workload, each (policyName, trap identity) pair
has at most one `TrapRecord` — no two records (flattened with their policy
names) share both the policy name and the trap identity. -/
def UniquePairs (l : List ChangeRecord) : Prop :=
  (l.flatMap (fun ch => ch.traps.map (fun t => (ch.deceptionPolicyName, t)))).Pairwise
    (fun a b => ¬(a.1 = b.1 ∧ sameTrapIdentity a.2 b.2 = true))

/-- The strengthened ledger invariant: policy names are pairwise distinct
and each change's records are pairwise distinct in identity. -/
def LedgerWellFormed (l : List ChangeRecord) : Prop :=
  (l.map (fun ch => ch.deceptionPolicyName)).Nodup
  ∧ ∀ ch ∈ l, ch.traps.Pairwise (fun a b => a.equals b true = false)

/-- Like `trapType_cases`, but for ledger records. -/
theorem recordTrapType_cases (r : TrapRecord) :
    r.trapType = .filesystemHoneytokenTrap ∨ r.trapType = .unknownTrap := by
  unfold TrapRecord.trapType
  split_ifs with h1 h2 h3
  · exact Or.inl rfl
  · exact absurd rfl h2
  · exact absurd rfl h3
  · exact Or.inr rfl

/-- `Equals` ignoring containers does not look at the right-hand record's
containers or timestamps (update form). -/
theorem equals_right_update (a b : TrapRecord) (c : List String) (y : String) :
    a.equals { b with updatedAt := y, containers := c } true = a.equals b true := by
  cases a
  cases b
  rfl

/-- `Equals` ignoring containers does not look at the right-hand record's
containers or timestamps (insert form). -/
theorem equals_right_insert (a b : TrapRecord) (c : List String) (x : String) :
    a.equals { b with createdAt := x, containers := c } true = a.equals b true := by
  cases a
  cases b
  rfl

/-- `Equals` ignoring containers does not look at the left-hand record's
containers or timestamps. -/
theorem equals_left_update (a b : TrapRecord) (c : List String) (y : String) :
    TrapRecord.equals { a with updatedAt := y, containers := c } b true = a.equals b true := by
  cases a
  cases b
  rfl

/-- `FilesystemHoneytokenAnnotation.Equals` is plain equality. -/
theorem fsRecordEquals_iff (a b : FilesystemHoneytokenRecord) :
    fsRecordEquals a b = true ↔ a = b := by
  cases a
  cases b
  unfold fsRecordEquals
  split_ifs <;> simp_all

/-- Characterization of `Equals` ignoring containers: true exactly for two
filesystem-typed records with the same strategy and the same filesystem
sub-record. -/
theorem equals_true_iff (a b : TrapRecord) :
    a.equals b true = true ↔
      a.trapType = .filesystemHoneytokenTrap
      ∧ a.deploymentStrategy = b.deploymentStrategy
      ∧ a.filesystemHoneytoken = b.filesystemHoneytoken := by
  unfold TrapRecord.equals
  rcases recordTrapType_cases a with h | h <;> rw [h] <;> split_ifs <;>
    simp_all [fsRecordEquals_iff]

/-- Destructing a successful `convertTrapToTrapAnnotation`. -/
theorem convert_ok_destruct (t : Trap) (cs : List String) (now : String)
    (conv : TrapRecord) (h : convertTrapToTrapRecord t cs now = .ok conv) :
    t.trapType = .filesystemHoneytokenTrap
    ∧ conv.deploymentStrategy = t.decoyDeployment.strategy
    ∧ conv.filesystemHoneytoken =
        { filePath := t.filesystemHoneytoken.filePath
          fileContentHash := Hash t.filesystemHoneytoken.fileContent
          readOnly := t.filesystemHoneytoken.readOnly } := by
  rcases trapType_cases t with htt | htt
  · simp only [convertTrapToTrapRecord, htt] at h
    injection h with h2
    subst h2
    exact ⟨htt, rfl, rfl⟩
  · simp [convertTrapToTrapRecord, htt] at h

/-- Matching a record against a freshly converted record by `Equals`
(ignoring containers) is the same as matching it against the trap by
`AreTheSameTrap`. -/
theorem equals_convert_iff (t : Trap) (cs : List String) (now : String)
    (conv : TrapRecord) (h : convertTrapToTrapRecord t cs now = .ok conv)
    (a : TrapRecord) :
    a.equals conv true = areTheSameTrap a t := by
  obtain ⟨htt, hs, hfs⟩ := convert_ok_destruct t cs now conv h
  rw [Bool.eq_iff_iff, equals_true_iff, areTheSameTrap_iff]
  constructor
  · rintro ⟨hat, hstrat, hafs⟩
    refine ⟨htt, hat, hstrat.trans hs, ?_, ?_, ?_⟩
    · rw [hafs, hfs]
    · rw [hafs, hfs]
    · rw [hafs, hfs]
  · rintro ⟨-, hat, hstrat, hpath, hhash, hro⟩
    refine ⟨hat, hstrat.trans hs.symm, ?_⟩
    rw [hfs, ← hpath, ← hhash, ← hro]

/-- Every element of the updated list is an original record or an original
record with refreshed `updatedAt`/containers. -/
theorem updateFirstMatchingRecord_mem (p : TrapRecord → Bool) (cs : List String)
    (now : String) :
    ∀ (l : List TrapRecord) (b : TrapRecord), b ∈ updateFirstMatchingRecord p cs now l →
      b ∈ l ∨ ∃ b0 ∈ l, b = { b0 with updatedAt := now, containers := cs } := by
  intro l
  induction l with
  | nil =>
    intro b hb
    simp [updateFirstMatchingRecord] at hb
  | cons r rs ih =>
    intro b hb
    unfold updateFirstMatchingRecord at hb
    split at hb
    · rcases List.mem_cons.mp hb with hb | hb
      · exact Or.inr ⟨r, List.mem_cons_self r rs, hb⟩
      · exact Or.inl (List.mem_cons_of_mem r hb)
    · rcases List.mem_cons.mp hb with hb | hb
      · subst hb
        exact Or.inl (List.mem_cons_self b rs)
      · rcases ih b hb with hmem | ⟨b0, hb0, hbe⟩
        · exact Or.inl (List.mem_cons_of_mem r hmem)
        · exact Or.inr ⟨b0, List.mem_cons_of_mem r hb0, hbe⟩

/-- The in-place update of the first matching record preserves pairwise
distinct identities (refreshing timestamps and containers does not change a
record's identity). -/
theorem updateFirstMatchingRecord_pairwise (p : TrapRecord → Bool) (cs : List String)
    (now : String) :
    ∀ l : List TrapRecord, l.Pairwise (fun a b => a.equals b true = false) →
      (updateFirstMatchingRecord p cs now l).Pairwise (fun a b => a.equals b true = false) := by
  intro l
  induction l with
  | nil =>
    intro _
    simp [updateFirstMatchingRecord]
  | cons r rs ih =>
    intro h
    rw [List.pairwise_cons] at h
    obtain ⟨hr, hrs⟩ := h
    unfold updateFirstMatchingRecord
    split
    · rw [List.pairwise_cons]
      refine ⟨?_, hrs⟩
      intro b hb
      rw [equals_left_update]
      exact hr b hb
    · rw [List.pairwise_cons]
      refine ⟨?_, ih hrs⟩
      intro b hb
      rcases updateFirstMatchingRecord_mem p cs now rs b hb with hmem | ⟨b0, hb0, rfl⟩
      · exact hr b hmem
      · rw [equals_right_update]
        exact hr b0 hb0

/-- The add-loop body keeps the change's policy name. -/
theorem addProcessedChange_name (P : String) (trap : Trap) (cnv : TrapRecord)
    (cs : List String) (now : String) (ch : ChangeRecord) :
    (addProcessedChange P trap cnv cs now ch).deceptionPolicyName
      = ch.deceptionPolicyName := by
  unfold addProcessedChange
  split_ifs <;> rfl

/-- The add-loop body preserves pairwise distinct identities of a change's
records. -/
theorem addProcessedChange_pairwise (P : String) (trap : Trap) (cnv : TrapRecord)
    (cs : List String) (now : String) (ch : ChangeRecord)
    (hconv : convertTrapToTrapRecord trap cs now = .ok cnv)
    (h : ch.traps.Pairwise (fun a b => a.equals b true = false)) :
    (addProcessedChange P trap cnv cs now ch).traps.Pairwise
      (fun a b => a.equals b true = false) := by
  unfold addProcessedChange
  split_ifs with h1 h2
  · exact updateFirstMatchingRecord_pairwise _ cs now ch.traps h
  · show (ch.traps ++ [cnv]).Pairwise _
    rw [List.pairwise_append]
    refine ⟨h, List.pairwise_singleton _ _, ?_⟩
    intro a ha b hb
    rw [List.mem_singleton] at hb
    rw [hb, equals_convert_iff trap cs now cnv hconv a]
    cases hval : areTheSameTrap a trap
    · rfl
    · exact absurd (List.any_eq_true.mpr ⟨a, ha, hval⟩) h2
  · exact h

/-- The update-loop body keeps the change's policy name. -/
theorem updateProcessedChange_name (P : String) (rec : TrapRecord)
    (cs : List String) (now : String) (ch : ChangeRecord) :
    (updateProcessedChange P rec cs now ch).deceptionPolicyName
      = ch.deceptionPolicyName := by
  unfold updateProcessedChange
  split_ifs <;> rfl

/-- The update-loop body preserves pairwise distinct identities of a
change's records. -/
theorem updateProcessedChange_pairwise (P : String) (rec : TrapRecord)
    (cs : List String) (now : String) (ch : ChangeRecord)
    (h : ch.traps.Pairwise (fun a b => a.equals b true = false)) :
    (updateProcessedChange P rec cs now ch).traps.Pairwise
      (fun a b => a.equals b true = false) := by
  unfold updateProcessedChange
  split_ifs with h1 h2
  · exact updateFirstMatchingRecord_pairwise _ cs now ch.traps h
  · show (ch.traps ++ [{ rec with createdAt := now, containers := cs }]).Pairwise _
    rw [List.pairwise_append]
    refine ⟨h, List.pairwise_singleton _ _, ?_⟩
    intro a ha b hb
    rw [List.mem_singleton] at hb
    rw [hb, equals_right_insert]
    cases hval : a.equals rec true
    · rfl
    · exact absurd (List.any_eq_true.mpr ⟨a, ha, hval⟩) h2
  · exact h

/-- Mapping a name-preserving body over a change list keeps the name list. -/
theorem map_names_eq (f : ChangeRecord → ChangeRecord)
    (hf : ∀ ch, (f ch).deceptionPolicyName = ch.deceptionPolicyName)
    (l : List ChangeRecord) :
    (l.map f).map (fun ch => ch.deceptionPolicyName)
      = l.map (fun ch => ch.deceptionPolicyName) := by
  induction l with
  | nil => rfl
  | cons ch rest ih => simp [hf, ih]

/-- A `filterMap` whose hits are renamings of the input element is a sublist
of the plain renaming. -/
theorem filterMap_name_sublist {α β : Type} (g : α → Option β) (nm : α → β)
    (hg : ∀ a b, g a = some b → b = nm a) :
    ∀ l : List α, List.Sublist (l.filterMap g) (l.map nm) := by
  intro l
  induction l with
  | nil => simp
  | cons a rest ih =>
    rw [List.filterMap_cons, List.map_cons]
    cases hga : g a with
    | none => exact ih.cons (nm a)
    | some b =>
      rw [hg a b hga]
      exact ih.cons₂ (nm a)

/-- The policy names surviving a removal form a sublist of the original
names. -/
theorem removeSurvivingChanges_names_sublist (P : String) (R : TrapRecord)
    (l : List ChangeRecord) :
    List.Sublist
      ((removeSurvivingChanges (some l) P R).map (fun ch => ch.deceptionPolicyName))
      (l.map (fun ch => ch.deceptionPolicyName)) := by
  have hred : (removeSurvivingChanges (some l) P R).map (fun ch => ch.deceptionPolicyName)
      = l.filterMap (fun change =>
          (if (removeProcessedChange P R change).traps.isEmpty then none
           else some (removeProcessedChange P R change)).map
            (fun ch => ch.deceptionPolicyName)) := by
    rw [show removeSurvivingChanges (some l) P R
        = l.filterMap (fun change =>
            if (removeProcessedChange P R change).traps.isEmpty then none
            else some (removeProcessedChange P R change)) from rfl]
    rw [List.map_filterMap]
  rw [hred]
  apply filterMap_name_sublist
  intro a b hab
  by_cases hemp : (removeProcessedChange P R a).traps.isEmpty
  · rw [if_pos hemp] at hab
    exact absurd hab (by simp)
  · rw [if_neg hemp] at hab
    rw [Option.map_some'] at hab
    injection hab with hab
    rw [← hab, removeProcessedChange_name]

/-- `AddTrapToAnnotations` preserves the strengthened ledger invariant. -/
theorem addTrapToAnnotations_preserves (l : List ChangeRecord) (P : String)
    (trap : Trap) (cs : List String) (now : String) (l' : List ChangeRecord)
    (hWF : LedgerWellFormed l)
    (h : addTrapToAnnotations (some l) P trap cs now = .ok l') :
    LedgerWellFormed l' := by
  obtain ⟨hnames, htraps⟩ := hWF
  unfold addTrapToAnnotations at h
  cases hconv : convertTrapToTrapRecord trap cs now with
  | error e =>
    rw [hconv] at h
    exact Except.noConfusion h
  | ok cnv =>
    rw [hconv] at h
    replace h : Except.ok (addTrapToAnnotationsOk l P trap cnv cs now)
        = Except.ok l' := h
    injection h with h2
    subst h2
    unfold addTrapToAnnotationsOk
    split
    · rename_i hexists
      constructor
      · rw [map_names_eq _ (addProcessedChange_name P trap cnv cs now) l]
        exact hnames
      · intro ch' hch'
        rw [List.mem_map] at hch'
        obtain ⟨ch, hch, rfl⟩ := hch'
        exact addProcessedChange_pairwise P trap cnv cs now ch hconv (htraps ch hch)
    · rename_i hexists
      have hnotin : ∀ ch ∈ l, ch.deceptionPolicyName ≠ P := by
        intro ch hch habs
        exact hexists (List.any_eq_true.mpr ⟨ch, hch, by simp [habs]⟩)
      constructor
      · rw [List.map_append, map_names_eq _ (addProcessedChange_name P trap cnv cs now) l]
        rw [List.nodup_append]
        refine ⟨hnames, List.nodup_singleton _, ?_⟩
        intro a ha hmem
        rw [List.map_cons, List.map_nil] at hmem
        rw [List.mem_singleton] at hmem
        rw [List.mem_map] at ha
        obtain ⟨ch, hch, rfl⟩ := ha
        exact hnotin ch hch hmem
      · intro ch' hch'
        rw [List.mem_append] at hch'
        rcases hch' with hch' | hch'
        · rw [List.mem_map] at hch'
          obtain ⟨ch, hch, rfl⟩ := hch'
          exact addProcessedChange_pairwise P trap cnv cs now ch hconv (htraps ch hch)
        · rw [List.mem_singleton] at hch'
          subst hch'
          exact List.pairwise_singleton _ _

/-- `UpdateContainersInAnnotations` preserves the strengthened ledger
invariant. -/
theorem updateContainersInAnnotations_preserves (l : List ChangeRecord) (P : String)
    (rec : TrapRecord) (cs : List String) (now : String)
    (hWF : LedgerWellFormed l) :
    LedgerWellFormed (updateContainersInAnnotations (some l) P rec cs now) := by
  obtain ⟨hnames, htraps⟩ := hWF
  constructor
  · rw [show updateContainersInAnnotations (some l) P rec cs now
        = l.map (updateProcessedChange P rec cs now) from rfl]
    rw [map_names_eq _ (updateProcessedChange_name P rec cs now) l]
    exact hnames
  · intro ch' hch'
    rw [show updateContainersInAnnotations (some l) P rec cs now
        = l.map (updateProcessedChange P rec cs now) from rfl] at hch'
    rw [List.mem_map] at hch'
    obtain ⟨ch, hch, rfl⟩ := hch'
    exact updateProcessedChange_pairwise P rec cs now ch (htraps ch hch)

/-- `RemoveTrapAnnotations` preserves the strengthened ledger invariant. -/
theorem removeTrapAnnotations_preserves (l : List ChangeRecord) (P : String)
    (rec : TrapRecord) (l' : List ChangeRecord)
    (hWF : LedgerWellFormed l)
    (h : removeTrapAnnotations (some l) P rec = some l') :
    LedgerWellFormed l' := by
  obtain ⟨hnames, htraps⟩ := hWF
  unfold removeTrapAnnotations at h
  split at h
  · exact absurd h (by simp)
  · injection h with h2
    subst h2
    constructor
    · exact hnames.sublist (removeSurvivingChanges_names_sublist P rec l)
    · intro ch' hch'
      rw [removeSurvivingChanges_mem] at hch'
      obtain ⟨ch, hch, -, rfl⟩ := hch'
      have hsub : List.Sublist (removeProcessedChange P rec ch).traps ch.traps := by
        unfold removeProcessedChange
        split
        · exact List.filter_sublist ch.traps
        · exact List.Sublist.refl ch.traps
      exact (htraps ch hch).sublist hsub

/-- The strengthened invariant implies spec invariant 1: at most one record
per (policyName, trap identity). -/
theorem ledgerWellFormed_uniquePairs (l : List ChangeRecord)
    (h : LedgerWellFormed l) : UniquePairs l := by
  obtain ⟨hnames, htraps⟩ := h
  unfold UniquePairs
  rw [List.flatMap_def, List.pairwise_flatten]
  constructor
  · intro l' hl'
    rw [List.mem_map] at hl'
    obtain ⟨ch, hch, rfl⟩ := hl'
    rw [List.pairwise_map]
    refine (htraps ch hch).imp ?_
    intro a b hab
    rintro ⟨-, hid⟩
    unfold sameTrapIdentity at hid
    rw [hab] at hid
    exact Bool.false_ne_true hid
  · rw [List.pairwise_map]
    have hdist : l.Pairwise
        (fun ch1 ch2 => ch1.deceptionPolicyName ≠ ch2.deceptionPolicyName) :=
      List.pairwise_map.mp hnames
    refine hdist.imp ?_
    intro ch1 ch2 h12 x hx y hy
    rw [List.mem_map] at hx hy
    obtain ⟨t1, -, rfl⟩ := hx
    obtain ⟨t2, -, rfl⟩ := hy
    rintro ⟨h1, -⟩
    exact h12 h1

/-- A ledger record installed at `/run/a`. -/
def c9RecordA : TrapRecord :=
  { deploymentStrategy := "containerExec", containers := ["nginx"]
    createdAt := "2025-01-01T00:00:00Z", updatedAt := ""
    filesystemHoneytoken :=
      { filePath := "/run/a", fileContentHash := Hash "a", readOnly := true }
    httpEndpoint := {}, httpPayload := {} }

/-- A ledger record installed at `/run/b`. -/
def c9RecordB : TrapRecord :=
  { deploymentStrategy := "containerExec", containers := ["nginx"]
    createdAt := "2025-01-01T00:00:00Z", updatedAt := ""
    filesystemHoneytoken :=
      { filePath := "/run/b", fileContentHash := Hash "b", readOnly := true }
    httpEndpoint := {}, httpPayload := {} }

/-- A third trap, at `/run/c`. -/
def c9Trap : Trap :=
  { filesystemHoneytoken :=
      { filePath := "/run/c", fileContent := "c", readOnly := true }
    httpEndpoint := {}
    httpPayload := {}
    decoyDeployment := { strategy := "containerExec" }
    captorDeployment := { strategy := "tetragon" }
    matchResources :=
      { any := some [{ namespaces := some ["default"], selector := none, containerSelector := "*" }] } }

/-- The record `AddTrapToAnnotations` derives from `c9Trap`. -/
def c9NewRecord : TrapRecord :=
  { deploymentStrategy := "containerExec", containers := ["nginx"]
    createdAt := "2025-01-02T00:00:00Z", updatedAt := ""
    filesystemHoneytoken :=
      { filePath := "/run/c", fileContentHash := Hash "c", readOnly := true }
    httpEndpoint := {}, httpPayload := {} }

/-- A ledger with two change records for the *same* policy name, each pair
(policyName, identity) still occurring at most once. -/
def c9DupLedger : List ChangeRecord :=
  [{ deceptionPolicyName := "demo-policy", traps := [c9RecordA] },
   { deceptionPolicyName := "demo-policy", traps := [c9RecordB] }]

/-- C9 counterexample: the claim quantifies over every ledger in which each
(policyName, trap identity) pair has at most one record.  `c9DupLedger`
satisfies that, but carries two change records for the same policy, and
`AddTrapToAnnotations` appends the new trap record to *both* of them — the
resulting ledger holds the pair ("demo-policy", identity of `c9Trap`)
twice. -/
theorem c9_add_breaks_uniqueness_on_duplicate_changes :
    UniquePairs c9DupLedger
    ∧ addTrapToAnnotations (some c9DupLedger) "demo-policy" c9Trap ["nginx"]
        "2025-01-02T00:00:00Z"
      = .ok [{ deceptionPolicyName := "demo-policy", traps := [c9RecordA, c9NewRecord] },
             { deceptionPolicyName := "demo-policy", traps := [c9RecordB, c9NewRecord] }]
    ∧ ¬ UniquePairs
        [{ deceptionPolicyName := "demo-policy", traps := [c9RecordA, c9NewRecord] },
         { deceptionPolicyName := "demo-policy", traps := [c9RecordB, c9NewRecord] }] := by
  refine ⟨by unfold UniquePairs; decide, rfl, by unfold UniquePairs; decide⟩

/-- C9 amended: for every ledger whose change records carry pairwise
distinct policy names and whose per-change records are pairwise distinct in
identity (which entails the at-most-one-record-per-(policyName, identity)
invariant), each of Add, UpdateContainers and Remove yields a ledger of the
same shape — so the uniqueness invariant still holds afterwards. -/
theorem c9_ledger_uniqueness_preserved (l : List ChangeRecord)
    (hWF : LedgerWellFormed l) :
    (∀ (P : String) (trap : Trap) (cs : List String) (now : String)
        (l' : List ChangeRecord),
      addTrapToAnnotations (some l) P trap cs now = .ok l' →
        LedgerWellFormed l' ∧ UniquePairs l')
    ∧ (∀ (P : String) (rec : TrapRecord) (cs : List String) (now : String),
        LedgerWellFormed (updateContainersInAnnotations (some l) P rec cs now)
        ∧ UniquePairs (updateContainersInAnnotations (some l) P rec cs now))
    ∧ (∀ (P : String) (rec : TrapRecord) (l' : List ChangeRecord),
        removeTrapAnnotations (some l) P rec = some l' →
          LedgerWellFormed l' ∧ UniquePairs l') := by
  refine ⟨?_, ?_, ?_⟩
  · intro P trap cs now l' h
    have hWF' := addTrapToAnnotations_preserves l P trap cs now l' hWF h
    exact ⟨hWF', ledgerWellFormed_uniquePairs l' hWF'⟩
  · intro P rec cs now
    have hWF' := updateContainersInAnnotations_preserves l P rec cs now hWF
    exact ⟨hWF', ledgerWellFormed_uniquePairs _ hWF'⟩
  · intro P rec l' h
    have hWF' := removeTrapAnnotations_preserves l P rec l' hWF h
    exact ⟨hWF', ledgerWellFormed_uniquePairs l' hWF'⟩

/-- C9 witness: adding a trap to the empty ledger yields a well-formed
one-change ledger. -/
theorem c9_ledger_uniqueness_preserved_witness :
    LedgerWellFormed [{ deceptionPolicyName := "demo-policy", traps := [c9NewRecord] }]
    ∧ UniquePairs [{ deceptionPolicyName := "demo-policy", traps := [c9NewRecord] }] :=
  (c9_ledger_uniqueness_preserved [] ⟨List.nodup_nil, by simp⟩).1
    "demo-policy" c9Trap ["nginx"] "2025-01-02T00:00:00Z"
    [{ deceptionPolicyName := "demo-policy", traps := [c9NewRecord] }] rfl

/-! ## Deterministic artifact names (filesystoken helpers)

`generateSecretName`, `generateVolumeName` and
`GenerateTetragonTracingPolicyName` derive names from a trap via
`utils.Hash`; the tracing-policy name hashes `json.Marshal(trap)`.
`encoding/json` is external library code: `trapJSON` models its output for
the `Trap` struct (field order as declared, struct tags as in the source;
string escaping and map-key sorting are immaterial to the claims and kept
minimal). -/

/-- JSON rendering of a string (escaping immaterial to the claims). -/
def jsonStr (s : String) : String := "\"" ++ s ++ "\""

/-- JSON of `FilesystemHoneytoken` (tags filePath / fileContent / readOnly). -/
def filesystemHoneytokenJSON (f : FilesystemHoneytoken) : String :=
  "\x7b\"filePath\":" ++ jsonStr f.filePath
    ++ ",\"fileContent\":" ++ jsonStr f.fileContent
    ++ ",\"readOnly\":" ++ (if f.readOnly then "true" else "false") ++ "\x7d"

/-- JSON of `DecoyDeployment` (strategy, omitempty). -/
def decoyDeploymentJSON (d : DecoyDeployment) : String :=
  if d.strategy = "" then "\x7b\x7d"
  else "\x7b\"strategy\":" ++ jsonStr d.strategy ++ "\x7d"

/-- JSON of `CaptorDeployment` (strategy, omitempty). -/
def captorDeploymentJSON (c : CaptorDeployment) : String :=
  if c.strategy = "" then "\x7b\x7d"
  else "\x7b\"strategy\":" ++ jsonStr c.strategy ++ "\x7d"

/-- JSON of `metav1.LabelSelector` (only matchLabels, omitempty). -/
def labelSelectorJSON (s : LabelSelector) : String :=
  if s.matchLabels.isEmpty then "\x7b\x7d"
  else
    "\x7b\"matchLabels\":\x7b"
      ++ String.intercalate ","
          (s.matchLabels.map (fun kv => jsonStr kv.1 ++ ":" ++ jsonStr kv.2))
      ++ "\x7d\x7d"

/-- JSON of `ResourceFilter` (embedded `ResourceDescription` under the
`resources` tag; namespaces / selector / containerSelector all omitempty). -/
def resourceFilterJSON (f : ResourceFilter) : String :=
  "\x7b\"resources\":\x7b"
    ++ String.intercalate ","
        ((if lenOptList f.namespaces = 0 then []
          else ["\"namespaces\":["
            ++ String.intercalate "," ((f.namespaces.getD []).map jsonStr) ++ "]"])
         ++ (match f.selector with
             | none => []
             | some sel => ["\"selector\":" ++ labelSelectorJSON sel])
         ++ (if f.containerSelector = "" then []
             else ["\"containerSelector\":" ++ jsonStr f.containerSelector]))
    ++ "\x7d\x7d"

/-- JSON of `MatchResources` (`any`, omitempty). -/
def matchResourcesJSON (m : MatchResources) : String :=
  if lenOptList m.any = 0 then "\x7b\x7d"
  else
    "\x7b\"any\":["
      ++ String.intercalate "," ((m.any.getD []).map resourceFilterJSON) ++ "]\x7d"

/-- Models `json.Marshal` on a `Trap` value: all six fields in declaration
order (Go's omitempty has no effect on struct-typed fields). -/
def trapJSON (t : Trap) : String :=
  "\x7b\"filesystemHoneytoken\":" ++ filesystemHoneytokenJSON t.filesystemHoneytoken
    ++ ",\"httpEndpoint\":\x7b\x7d,\"httpPayload\":\x7b\x7d"
    ++ ",\"decoyDeployment\":" ++ decoyDeploymentJSON t.decoyDeployment
    ++ ",\"captorDeployment\":" ++ captorDeploymentJSON t.captorDeployment
    ++ ",\"match\":" ++ matchResourcesJSON t.matchResources ++ "\x7d"

/-- Mirrors `generateSecretName` (filesystoken helpers): the hash is over
`filePath + ":" + fileContent` for filesystem honeytokens. -/
def generateSecretName (trap : Trap) : String :=
  "koney-secret-"
    ++ match trap.trapType with
       | .filesystemHoneytokenTrap =>
         Hash (trap.filesystemHoneytoken.filePath ++ ":"
           ++ trap.filesystemHoneytoken.fileContent)
       | .httpEndpointTrap => ""
       | .httpPayloadTrap => ""
       | .unknownTrap => ""

/-- Mirrors `generateVolumeName`: hash of the file path. -/
def generateVolumeName (filePath : String) : String :=
  "koney-volume-" ++ Hash filePath

/-- Mirrors `GenerateTetragonTracingPolicyName`: hash of the JSON of the
*whole* trap (`json.Marshal` cannot fail on a `Trap` value, so the error
path is dead). -/
def GenerateTetragonTracingPolicyName (trap : Trap) : String :=
  "koney-tracing-policy-" ++ Hash (trapJSON trap)

/-- Two traps with the same identity-bearing fields (strategy, kind,
filePath, content hash, readOnly) but different match criteria. -/
def c7TrapA : Trap :=
  { filesystemHoneytoken :=
      { filePath := "/etc/secret/token", fileContent := "x", readOnly := true }
    httpEndpoint := {}
    httpPayload := {}
    decoyDeployment := { strategy := "volumeMount" }
    captorDeployment := { strategy := "tetragon" }
    matchResources :=
      { any := some [{ namespaces := some ["ns-one"], selector := none, containerSelector := "*" }] } }

/-- Same trap as `c7TrapA` except for the matched namespace. -/
def c7TrapB : Trap :=
  { filesystemHoneytoken :=
      { filePath := "/etc/secret/token", fileContent := "x", readOnly := true }
    httpEndpoint := {}
    httpPayload := {}
    decoyDeployment := { strategy := "volumeMount" }
    captorDeployment := { strategy := "tetragon" }
    matchResources :=
      { any := some [{ namespaces := some ["ns-two"], selector := none, containerSelector := "*" }] } }

set_option maxRecDepth 4096 in
/-- C7 counterexample: the tracing-policy name hashes the JSON of the whole
trap, so two traps that agree on every identity-bearing field (strategy,
kind, filePath, content hash, readOnly) but differ in match criteria get
different tracing-policy names — the name does not depend only on the
identity-bearing fields. -/
theorem c7_tracing_name_depends_on_match_criteria :
    c7TrapA.decoyDeployment = c7TrapB.decoyDeployment
    ∧ c7TrapA.filesystemHoneytoken = c7TrapB.filesystemHoneytoken
    ∧ c7TrapA.captorDeployment = c7TrapB.captorDeployment
    ∧ GenerateTetragonTracingPolicyName c7TrapA ≠ GenerateTetragonTracingPolicyName c7TrapB := by
  exact ⟨rfl, rfl, rfl, by decide⟩

/-- C7 amended: `secretName` and `volumeName` are deterministic and depend
only on the identity-bearing fields (in fact only on kind, filePath and
content (hash)); `tracingPolicyName` is deterministic as a function of the
trap's full serialization, but depends on the whole trap (including match
criteria), not only on the identity-bearing fields. -/
theorem c7_derived_names_determinism (t1 t2 : Trap)
    (h1 : t1.trapType = .filesystemHoneytokenTrap)
    (h2 : t2.trapType = .filesystemHoneytokenTrap)
    (_hstrat : t1.decoyDeployment.strategy = t2.decoyDeployment.strategy)
    (hpath : t1.filesystemHoneytoken.filePath = t2.filesystemHoneytoken.filePath)
    (hhash : Hash t1.filesystemHoneytoken.fileContent
      = Hash t2.filesystemHoneytoken.fileContent)
    (_hro : t1.filesystemHoneytoken.readOnly = t2.filesystemHoneytoken.readOnly) :
    generateSecretName t1 = generateSecretName t2
    ∧ generateVolumeName t1.filesystemHoneytoken.filePath
        = generateVolumeName t2.filesystemHoneytoken.filePath
    ∧ (∀ s1 s2 : Trap, trapJSON s1 = trapJSON s2 →
        GenerateTetragonTracingPolicyName s1 = GenerateTetragonTracingPolicyName s2) := by
  have hcontent : t1.filesystemHoneytoken.fileContent
      = t2.filesystemHoneytoken.fileContent := Hash_injective hhash
  refine ⟨?_, ?_, ?_⟩
  · unfold generateSecretName
    rw [h1, h2, hpath, hcontent]
  · unfold generateVolumeName
    rw [hpath]
  · intro s1 s2 h
    unfold GenerateTetragonTracingPolicyName
    rw [h]

/-- C7 witness: the identity-equal traps `c7TrapA`/`c7TrapB` share their
secret and volume names. -/
theorem c7_derived_names_determinism_witness :
    generateSecretName c7TrapA = generateSecretName c7TrapB
    ∧ generateVolumeName c7TrapA.filesystemHoneytoken.filePath
        = generateVolumeName c7TrapB.filesystemHoneytoken.filePath :=
  And.intro
    (c7_derived_names_determinism c7TrapA c7TrapB rfl rfl rfl rfl rfl rfl).1
    (c7_derived_names_determinism c7TrapA c7TrapB rfl rfl rfl rfl rfl rfl).2.1

/-! ## internal/controller/matching: the matcher

The cluster API reader is modelled by an explicit list of workloads of the
kind selected by the deployment strategy (pods or deployments); `r.List`
with `InNamespace` / `MatchingLabels` options becomes list filtering.  The
Go map keyed by `client.Object` with name-based lookup
(`getObjectFromMap`) becomes an association list keyed by workload. -/

/-- A workload (pod or deployment) as the matcher sees it: name, namespace,
labels, and declared container names. -/
structure Workload where
  name : String
  ns : String
  labels : List (String × String)
  containers : List String
deriving DecidableEq, Repr

/-- `r.List(ctx, list, client.InNamespace(namespace))`. -/
def listInNamespace (cluster : List Workload) (n : String) : List Workload :=
  cluster.filter (fun w => w.ns = n)

/-- A workload matches a `client.MatchingLabels` selector when every
selector pair occurs among its labels. -/
def matchesLabels (wLabels sel : List (String × String)) : Bool :=
  sel.all (fun kv => kv ∈ wLabels)

/-- `r.List(ctx, list, client.MatchingLabels(selector.MatchLabels))`. -/
def listMatchingLabels (cluster : List Workload) (sel : List (String × String)) :
    List Workload :=
  cluster.filter (fun w => matchesLabels w.labels sel)

/-- `utils.Contains(extractObjectNames(objects), name)`. -/
def containsName (ws : List Workload) (n : String) : Bool :=
  ws.any (fun w => w.name = n)

/-- The repeated append-if-name-unseen loop of
`getMatchingObjectsByNamespaceAndLabels`. -/
def addUniqueByName (acc items : List Workload) : List Workload :=
  items.foldl (fun acc w => if containsName acc w.name then acc else acc ++ [w]) acc

/-- Whether the filter's selector is non-nil with at least one match label
(the condition guarding the label listing in the source). -/
def selectorHasLabels (f : ResourceFilter) : Bool :=
  match f.selector with
  | none => false
  | some sel => 0 < sel.matchLabels.length

/-- The `matchingByNamespace` list: objects matching one of the filter's
namespaces, unioned by name. -/
def matchingByNamespaceList (cluster : List Workload) (f : ResourceFilter) :
    List Workload :=
  if 0 < lenOptList f.namespaces then
    (f.namespaces.getD []).foldl (fun acc n => addUniqueByName acc (listInNamespace cluster n)) []
  else []

/-- The `matchingByLabels` list: objects matching the filter's labels
(cluster-wide), deduplicated by name. -/
def matchingByLabelsList (cluster : List Workload) (f : ResourceFilter) :
    List Workload :=
  match f.selector with
  | none => []
  | some sel =>
    if 0 < sel.matchLabels.length then addUniqueByName [] (listMatchingLabels cluster sel.matchLabels)
    else []

/-- Mirrors `getMatchingObjectsByNamespaceAndLabels` (matching.go): OR over
the filter's namespaces, OR over its labels, then the three combination
blocks — labels alone when no namespaces, namespaces alone when no labels,
and the by-name intersection when both are present. -/
def getMatchingObjectsByNamespaceAndLabels (cluster : List Workload)
    (f : ResourceFilter) : List Workload :=
  let matchingByNamespace := matchingByNamespaceList cluster f
  let matchingByLabels := matchingByLabelsList cluster f
  let m1 :=
    if lenOptList f.namespaces = 0 then addUniqueByName [] matchingByLabels
    else []
  let m2 :=
    if selectorHasLabels f = false then addUniqueByName m1 matchingByNamespace
    else m1
  matchingByNamespace.foldl (fun acc wNs =>
    matchingByLabels.foldl (fun acc wL =>
      if wNs.name = wL.name then
        (if containsName acc wNs.name then acc else acc ++ [wNs])
      else acc) acc) m2

/-- Mirrors `ContainerSelectorSelectsAll` (matching helpers). -/
def ContainerSelectorSelectsAll (containerSelector : String) : Bool :=
  containerSelector = "*" ∨ containerSelector = ""

/-- One escaped or literal character of a glob character class
(`getEsc` of Go's `path/filepath`). -/
def getEsc : List Char → Except String (Char × List Char)
  | [] => .error "syntax error in pattern"
  | c :: rest =>
    if c = '-' ∨ c = ']' then .error "syntax error in pattern"
    else if c = '\\' then
      match rest with
      | [] => .error "syntax error in pattern"
      | d :: rest2 => .ok (d, rest2)
    else .ok (c, rest)

/-- Range loop of a glob character class: consume `lo[-hi]` items until the
closing bracket, reporting whether the character fell in some range.  The
fuel bounds the recursion by the pattern length. -/
def matchClassRanges (r : Char) : Nat → List Char → Bool → Nat →
    Except String (Bool × List Char)
  | 0, _, _, _ => .error "syntax error in pattern"
  | fuel + 1, p, matched, nrange =>
    match p, nrange with
    | ']' :: rest, Nat.succ _ => .ok (matched, rest)
    | _, _ =>
      match getEsc p with
      | .error e => .error e
      | .ok (lo, p1) =>
        match p1 with
        | '-' :: p1tail =>
          match getEsc p1tail with
          | .error e => .error e
          | .ok (hi, p2) =>
            matchClassRanges r fuel p2 (matched || (lo ≤ r && r ≤ hi)) (nrange + 1)
        | _ =>
          matchClassRanges r fuel p1 (matched || (lo ≤ r && r ≤ lo)) (nrange + 1)

/-- Models Go's `filepath.Match` (external standard library): `*` matches
any run of non-separator characters, `?` one non-separator character,
`[...]` a character class with optional `^` negation and `-` ranges, `\\`
escapes; a malformed pattern is `ErrBadPattern`.  The fuel bounds the
recursion; every call strictly decreases `|pattern| + |name|`, so the
entry-point fuel is never exhausted. -/
def goMatchAux : Nat → List Char → List Char → Except String Bool
  | 0, _, _ => .error "fuel exhausted"
  | fuel + 1, p, s =>
    match p, s with
    | [], [] => .ok true
    | [], _ :: _ => .ok false
    | '*' :: pr, s =>
      (match goMatchAux fuel pr s with
       | .error e => .error e
       | .ok true => .ok true
       | .ok false =>
         match s with
         | [] => .ok false
         | c :: sr => if c = '/' then .ok false else goMatchAux fuel ('*' :: pr) sr)
    | '?' :: pr, c :: sr =>
      if c = '/' then .ok false else goMatchAux fuel pr sr
    | '?' :: _, [] => .ok false
    | '[' :: pr, c :: sr =>
      (match (match pr with
              | '^' :: rest => matchClassRanges c (rest.length + 1) rest false 0
              | _ => matchClassRanges c (pr.length + 1) pr false 0) with
       | .error e => .error e
       | .ok (matched, p2) =>
         let negated : Bool := match pr with | '^' :: _ => true | _ => false
         if matched = negated then .ok false else goMatchAux fuel p2 sr)
    | '[' :: pr, [] =>
      (match (match pr with
              | '^' :: rest => matchClassRanges (Char.ofNat 0xFFFD) (rest.length + 1) rest false 0
              | _ => matchClassRanges (Char.ofNat 0xFFFD) (pr.length + 1) pr false 0) with
       | .error e => .error e
       | .ok _ => .ok false)
    | '\\' :: pr, s =>
      (match pr with
       | [] => .error "syntax error in pattern"
       | c :: pr2 =>
         match s with
         | [] => .ok false
         | d :: sr => if c = d then goMatchAux fuel pr2 sr else .ok false)
    | c :: pr, d :: sr =>
      if c = d then goMatchAux fuel pr sr else .ok false
    | _ :: _, [] => .ok false

/-- `filepath.Match(containerSelector, containerName)`. -/
def filepathMatch (pattern nm : String) : Except String Bool :=
  goMatchAux (pattern.length + nm.length + 1) pattern.data nm.data

/-- The match loop of `selectContainers`: keep the container names matching
the glob, propagating `ErrBadPattern`. -/
def selectContainersLoop (containerSelector : String) :
    List String → Except String (List String)
  | [] => .ok []
  | c :: rest =>
    match filepathMatch containerSelector c with
    | .error e => .error e
    | .ok true =>
      match selectContainersLoop containerSelector rest with
      | .error e => .error e
      | .ok l => .ok (c :: l)
    | .ok false => selectContainersLoop containerSelector rest

/-- Mirrors `selectContainers` (matching.go): all declared containers when
the selector selects all, otherwise the glob-filtered subset. -/
def selectContainers (w : Workload) (containerSelector : String) :
    Except String (List String) :=
  if ContainerSelectorSelectsAll containerSelector then .ok w.containers
  else selectContainersLoop containerSelector w.containers

/-- Merging a matched workload with its selected containers into the result
map (`getObjectFromMap` by name; union containers avoiding duplicates,
else a new entry). -/
def mergeEntry : List (Workload × List String) → Workload → List String →
    List (Workload × List String)
  | [], w, cs => [(w, cs)]
  | e :: rest, w, cs =>
    if e.1.name = w.name then
      (e.1, cs.foldl (fun containers c =>
        if c ∈ containers then containers else containers ++ [c]) e.2) :: rest
    else e :: mergeEntry rest w cs

/-- The inner loop of `getMatchingObjectsWithContainers`: for each matched
object select its containers, skip the object when none match, otherwise
merge it into the map. -/
def processObjs (f : ResourceFilter) :
    List Workload → List (Workload × List String) →
    Except String (List (Workload × List String))
  | [], acc => .ok acc
  | w :: ws, acc =>
    match selectContainers w f.containerSelector with
    | .error e => .error e
    | .ok [] => processObjs f ws acc
    | .ok cs => processObjs f ws (mergeEntry acc w cs)

/-- Mirrors `getMatchingObjectsWithContainers` (matching.go): a logical OR
over the resource filters, merging each filter's matches into the shared
map (the call on `matchResources` passes `matchResources.Any` and an empty
accumulator). -/
def getMatchingObjectsWithContainers (cluster : List Workload) :
    List ResourceFilter → List (Workload × List String) →
    Except String (List (Workload × List String))
  | [], acc => .ok acc
  | f :: fs, acc =>
    match processObjs f (getMatchingObjectsByNamespaceAndLabels cluster f) acc with
    | .error e => .error e
    | .ok acc1 => getMatchingObjectsWithContainers cluster fs acc1

/-- A workload name occurs in a workload list. -/
def nameInList (l : List Workload) (n : String) : Prop :=
  ∃ w ∈ l, w.name = n

/-- A workload name occurs in the result map. -/
def entryNameMem (res : List (Workload × List String)) (n : String) : Prop :=
  ∃ e ∈ res, e.1.name = n

/-- A (workload name, container) pair occurs in the result map. -/
def entryContainerMem (res : List (Workload × List String)) (n c : String) : Prop :=
  ∃ e ∈ res, e.1.name = n ∧ c ∈ e.2

/-- Membership after the duplicate-avoiding container union. -/
theorem mem_unionFold (c : String) : ∀ (cs l0 : List String),
    c ∈ cs.foldl (fun l c' => if c' ∈ l then l else l ++ [c']) l0 ↔ c ∈ l0 ∨ c ∈ cs := by
  intro cs
  induction cs with
  | nil => intro l0; simp
  | cons c' cs ih =>
    intro l0
    rw [List.foldl_cons, ih]
    by_cases h : c' ∈ l0
    · rw [if_pos h]
      simp only [List.mem_cons]
      constructor
      · rintro (hc | hc)
        · exact Or.inl hc
        · exact Or.inr (Or.inr hc)
      · rintro (hc | hc | hc)
        · exact Or.inl hc
        · exact Or.inl (hc ▸ h)
        · exact Or.inr hc
    · rw [if_neg h]
      simp only [List.mem_append, List.mem_singleton, List.mem_cons]
      tauto

/-- The duplicate-avoiding container union keeps the list duplicate-free. -/
theorem nodup_unionFold : ∀ (cs l0 : List String), l0.Nodup →
    (cs.foldl (fun l c' => if c' ∈ l then l else l ++ [c']) l0).Nodup := by
  intro cs
  induction cs with
  | nil => intro l0 h; exact h
  | cons c' cs ih =>
    intro l0 h
    rw [List.foldl_cons]
    apply ih
    by_cases hc : c' ∈ l0
    · rw [if_pos hc]; exact h
    · rw [if_neg hc, List.nodup_append]
      refine ⟨h, List.nodup_singleton c', ?_⟩
      intro a ha hmem
      rw [List.mem_singleton] at hmem
      exact hc (hmem ▸ ha)

/-- Name membership after merging an entry. -/
theorem mergeEntry_nameMem (w : Workload) (cs : List String) (n : String) :
    ∀ acc, entryNameMem (mergeEntry acc w cs) n ↔ entryNameMem acc n ∨ n = w.name := by
  intro acc
  induction acc with
  | nil =>
    unfold mergeEntry entryNameMem
    simp [eq_comm]
  | cons e rest ih =>
    unfold mergeEntry
    split
    · rename_i h
      unfold entryNameMem
      simp only [List.mem_cons]
      constructor
      · rintro ⟨x, (rfl | hx), hxn⟩
        · exact Or.inl ⟨e, Or.inl rfl, hxn⟩
        · exact Or.inl ⟨x, Or.inr hx, hxn⟩
      · rintro (⟨x, (hx1 | hx), hxn⟩ | rfl)
        · rw [hx1] at hxn
          exact ⟨(e.1, cs.foldl (fun containers c =>
            if c ∈ containers then containers else containers ++ [c]) e.2), Or.inl rfl, hxn⟩
        · exact ⟨x, Or.inr hx, hxn⟩
        · exact ⟨(e.1, cs.foldl (fun containers c =>
            if c ∈ containers then containers else containers ++ [c]) e.2), Or.inl rfl, h⟩
    · rename_i h
      unfold entryNameMem at ih ⊢
      simp only [List.mem_cons]
      constructor
      · rintro ⟨x, (rfl | hx), hxn⟩
        · exact Or.inl ⟨x, Or.inl rfl, hxn⟩
        · rcases ih.mp ⟨x, hx, hxn⟩ with ⟨y, hy, hyn⟩ | hn
          · exact Or.inl ⟨y, Or.inr hy, hyn⟩
          · exact Or.inr hn
      · rintro (⟨x, (rfl | hx), hxn⟩ | rfl)
        · exact ⟨x, Or.inl rfl, hxn⟩
        · rcases ih.mpr (Or.inl ⟨x, hx, hxn⟩) with ⟨y, hy, hyn⟩
          exact ⟨y, Or.inr hy, hyn⟩
        · rcases ih.mpr (Or.inr rfl) with ⟨y, hy, hyn⟩
          exact ⟨y, Or.inr hy, hyn⟩

/-- Container membership after merging an entry. -/
theorem mergeEntry_containerMem (w : Workload) (cs : List String) (n c : String) :
    ∀ acc, entryContainerMem (mergeEntry acc w cs) n c
      ↔ entryContainerMem acc n c ∨ (n = w.name ∧ c ∈ cs) := by
  intro acc
  induction acc with
  | nil =>
    unfold mergeEntry entryContainerMem
    simp [eq_comm]
  | cons e rest ih =>
    unfold mergeEntry
    split
    · rename_i h
      unfold entryContainerMem
      simp only [List.mem_cons]
      constructor
      · rintro ⟨x, (rfl | hx), hxn, hxc⟩
        · rcases (mem_unionFold c cs e.2).mp hxc with hc | hc
          · exact Or.inl ⟨e, Or.inl rfl, hxn, hc⟩
          · exact Or.inr ⟨by rw [← hxn, h], hc⟩
        · exact Or.inl ⟨x, Or.inr hx, hxn, hxc⟩
      · rintro (⟨x, (hx1 | hx), hxn, hxc⟩ | ⟨rfl, hc⟩)
        · rw [hx1] at hxn hxc
          refine ⟨_, Or.inl rfl, hxn, ?_⟩
          exact (mem_unionFold c cs e.2).mpr (Or.inl hxc)
        · exact ⟨x, Or.inr hx, hxn, hxc⟩
        · refine ⟨_, Or.inl rfl, h, ?_⟩
          exact (mem_unionFold c cs e.2).mpr (Or.inr hc)
    · rename_i h
      unfold entryContainerMem at ih ⊢
      simp only [List.mem_cons]
      constructor
      · rintro ⟨x, (rfl | hx), hxn, hxc⟩
        · exact Or.inl ⟨x, Or.inl rfl, hxn, hxc⟩
        · rcases ih.mp ⟨x, hx, hxn, hxc⟩ with ⟨y, hy, hyn, hyc⟩ | hn
          · exact Or.inl ⟨y, Or.inr hy, hyn, hyc⟩
          · exact Or.inr hn
      · rintro (⟨x, (rfl | hx), hxn, hxc⟩ | hn)
        · exact ⟨x, Or.inl rfl, hxn, hxc⟩
        · rcases ih.mpr (Or.inl ⟨x, hx, hxn, hxc⟩) with ⟨y, hy, hyn, hyc⟩
          exact ⟨y, Or.inr hy, hyn, hyc⟩
        · rcases ih.mpr (Or.inr hn) with ⟨y, hy, hyn, hyc⟩
          exact ⟨y, Or.inr hy, hyn, hyc⟩

/-- A name is matched by a single filter: some object passes the
namespace/label match, and its container selection is non-empty. -/
def singleFilterName (cluster : List Workload) (f : ResourceFilter) (n : String) : Prop :=
  ∃ w ∈ getMatchingObjectsByNamespaceAndLabels cluster f, w.name = n
    ∧ ∃ cs, selectContainers w f.containerSelector = .ok cs ∧ cs ≠ []

/-- A (name, container) pair is matched by a single filter. -/
def singleFilterContainer (cluster : List Workload) (f : ResourceFilter) (n c : String) :
    Prop :=
  ∃ w ∈ getMatchingObjectsByNamespaceAndLabels cluster f, w.name = n
    ∧ ∃ cs, selectContainers w f.containerSelector = .ok cs ∧ c ∈ cs

/-- Rewriting an existential over the deterministic container selection. -/
theorem exists_selectContainers_iff (w : Workload) (sel : String) (cs : List String)
    (hsel : selectContainers w sel = .ok cs) (P : List String → Prop) :
    (∃ cs', selectContainers w sel = .ok cs' ∧ P cs') ↔ P cs := by
  constructor
  · rintro ⟨cs', hcs', hp⟩
    rw [hsel] at hcs'
    injection hcs' with hh
    rw [hh]
    exact hp
  · intro hp
    exact ⟨cs, hsel, hp⟩

/-- Membership across the inner loop of `getMatchingObjectsWithContainers`. -/
theorem processObjs_mem (f : ResourceFilter) :
    ∀ (ws : List Workload) (acc res : List (Workload × List String)),
      processObjs f ws acc = .ok res →
      (∀ n, entryNameMem res n ↔ entryNameMem acc n
        ∨ ∃ w ∈ ws, w.name = n ∧ ∃ cs, selectContainers w f.containerSelector = .ok cs ∧ cs ≠ [])
      ∧ (∀ n c, entryContainerMem res n c ↔ entryContainerMem acc n c
        ∨ ∃ w ∈ ws, w.name = n ∧ ∃ cs, selectContainers w f.containerSelector = .ok cs ∧ c ∈ cs) := by
  intro ws
  induction ws with
  | nil =>
    intro acc res h
    injection h with h2
    subst h2
    constructor
    · intro n
      simp
    · intro n c
      simp
  | cons w ws ih =>
    intro acc res h
    unfold processObjs at h
    cases hsel : selectContainers w f.containerSelector with
    | error e =>
      rw [hsel] at h
      exact Except.noConfusion h
    | ok cs =>
      rw [hsel] at h
      cases cs with
      | nil =>
        obtain ⟨ihn, ihc⟩ := ih acc res h
        constructor
        · intro n
          rw [ihn n]
          simp only [List.mem_cons]
          constructor
          · rintro (ha | ⟨w', hw', hn', hcs'⟩)
            · exact Or.inl ha
            · exact Or.inr ⟨w', Or.inr hw', hn', hcs'⟩
          · rintro (ha | ⟨w', (rfl | hw'), hn', hcs'⟩)
            · exact Or.inl ha
            · rw [exists_selectContainers_iff w' f.containerSelector [] hsel] at hcs'
              exact absurd rfl hcs'
            · exact Or.inr ⟨w', hw', hn', hcs'⟩
        · intro n c
          rw [ihc n c]
          simp only [List.mem_cons]
          constructor
          · rintro (ha | ⟨w', hw', hn', hcs'⟩)
            · exact Or.inl ha
            · exact Or.inr ⟨w', Or.inr hw', hn', hcs'⟩
          · rintro (ha | ⟨w', (rfl | hw'), hn', hcs'⟩)
            · exact Or.inl ha
            · rw [exists_selectContainers_iff w' f.containerSelector [] hsel] at hcs'
              exact absurd hcs' (List.not_mem_nil c)
            · exact Or.inr ⟨w', hw', hn', hcs'⟩
      | cons c0 cs0 =>
        obtain ⟨ihn, ihc⟩ := ih (mergeEntry acc w (c0 :: cs0)) res h
        constructor
        · intro n
          rw [ihn n, mergeEntry_nameMem]
          simp only [List.mem_cons]
          constructor
          · rintro ((ha | hn) | ⟨w', hw', hn', hcs'⟩)
            · exact Or.inl ha
            · exact Or.inr ⟨w, Or.inl rfl, hn.symm,
                (exists_selectContainers_iff w f.containerSelector _ hsel _).mpr
                  (List.cons_ne_nil c0 cs0)⟩
            · exact Or.inr ⟨w', Or.inr hw', hn', hcs'⟩
          · rintro (ha | ⟨w', (rfl | hw'), hn', hcs'⟩)
            · exact Or.inl (Or.inl ha)
            · exact Or.inl (Or.inr hn'.symm)
            · exact Or.inr ⟨w', hw', hn', hcs'⟩
        · intro n c
          rw [ihc n c, mergeEntry_containerMem]
          simp only [List.mem_cons]
          constructor
          · rintro ((ha | ⟨hn, hc⟩) | ⟨w', hw', hn', hcs'⟩)
            · exact Or.inl ha
            · exact Or.inr ⟨w, Or.inl rfl, hn.symm,
                (exists_selectContainers_iff w f.containerSelector _ hsel _).mpr
                  (List.mem_cons.mpr hc)⟩
            · exact Or.inr ⟨w', Or.inr hw', hn', hcs'⟩
          · rintro (ha | ⟨w', (rfl | hw'), hn', hcs'⟩)
            · exact Or.inl (Or.inl ha)
            · rw [exists_selectContainers_iff w' f.containerSelector _ hsel] at hcs'
              exact Or.inl (Or.inr ⟨hn'.symm, List.mem_cons.mp hcs'⟩)
            · exact Or.inr ⟨w', hw', hn', hcs'⟩

/-- Whether the inner loop succeeds does not depend on the accumulator. -/
theorem processObjs_ok_indep (f : ResourceFilter) :
    ∀ (ws : List Workload) (acc res : List (Workload × List String)),
      processObjs f ws acc = .ok res →
      ∀ acc', ∃ res', processObjs f ws acc' = .ok res' := by
  intro ws
  induction ws with
  | nil =>
    intro acc res _ acc'
    exact ⟨acc', rfl⟩
  | cons w ws ih =>
    intro acc res h acc'
    unfold processObjs at h ⊢
    cases hsel : selectContainers w f.containerSelector with
    | error e =>
      rw [hsel] at h
      exact Except.noConfusion h
    | ok cs =>
      rw [hsel] at h
      cases cs with
      | nil => exact ih acc res h acc'
      | cons c0 cs0 => exact ih (mergeEntry acc w (c0 :: cs0)) res h (mergeEntry acc' w (c0 :: cs0))

/-- Membership across the filter loop: OR over the filters. -/
theorem getMatchingObjectsWithContainers_mem (cluster : List Workload) :
    ∀ (filters : List ResourceFilter) (acc res : List (Workload × List String)),
      getMatchingObjectsWithContainers cluster filters acc = .ok res →
      (∀ n, entryNameMem res n ↔ entryNameMem acc n
        ∨ ∃ f ∈ filters, singleFilterName cluster f n)
      ∧ (∀ n c, entryContainerMem res n c ↔ entryContainerMem acc n c
        ∨ ∃ f ∈ filters, singleFilterContainer cluster f n c) := by
  intro filters
  induction filters with
  | nil =>
    intro acc res h
    injection h with h2
    subst h2
    constructor
    · intro n
      simp
    · intro n c
      simp
  | cons f fs ih =>
    intro acc res h
    unfold getMatchingObjectsWithContainers at h
    cases hp : processObjs f (getMatchingObjectsByNamespaceAndLabels cluster f) acc with
    | error e =>
      rw [hp] at h
      exact Except.noConfusion h
    | ok acc1 =>
      rw [hp] at h
      obtain ⟨ihn, ihc⟩ := ih acc1 res h
      obtain ⟨hpn, hpc⟩ := processObjs_mem f _ acc acc1 hp
      constructor
      · intro n
        rw [ihn n, hpn n]
        unfold singleFilterName
        simp only [List.mem_cons]
        constructor
        · rintro ((ha | hone) | ⟨f', hf', hone'⟩)
          · exact Or.inl ha
          · exact Or.inr ⟨f, Or.inl rfl, hone⟩
          · exact Or.inr ⟨f', Or.inr hf', hone'⟩
        · rintro (ha | ⟨f', (rfl | hf'), hone'⟩)
          · exact Or.inl (Or.inl ha)
          · exact Or.inl (Or.inr hone')
          · exact Or.inr ⟨f', hf', hone'⟩
      · intro n c
        rw [ihc n c, hpc n c]
        unfold singleFilterContainer
        simp only [List.mem_cons]
        constructor
        · rintro ((ha | hone) | ⟨f', hf', hone'⟩)
          · exact Or.inl ha
          · exact Or.inr ⟨f, Or.inl rfl, hone⟩
          · exact Or.inr ⟨f', Or.inr hf', hone'⟩
        · rintro (ha | ⟨f', (rfl | hf'), hone'⟩)
          · exact Or.inl (Or.inl ha)
          · exact Or.inl (Or.inr hone')
          · exact Or.inr ⟨f', hf', hone'⟩

/-- When the whole run succeeds, every single-filter run succeeds too. -/
theorem getMatchingObjectsWithContainers_single_ok (cluster : List Workload) :
    ∀ (filters : List ResourceFilter) (acc res : List (Workload × List String)),
      getMatchingObjectsWithContainers cluster filters acc = .ok res →
      ∀ f ∈ filters, ∃ resf,
        getMatchingObjectsWithContainers cluster [f] [] = .ok resf := by
  intro filters
  induction filters with
  | nil =>
    intro acc res _ f hf
    exact absurd hf (List.not_mem_nil f)
  | cons f0 fs ih =>
    intro acc res h f hf
    unfold getMatchingObjectsWithContainers at h
    cases hp : processObjs f0 (getMatchingObjectsByNamespaceAndLabels cluster f0) acc with
    | error e =>
      rw [hp] at h
      exact Except.noConfusion h
    | ok acc1 =>
      rw [hp] at h
      rcases List.mem_cons.mp hf with rfl | hf'
      · obtain ⟨res0, hres0⟩ := processObjs_ok_indep f _ acc acc1 hp []
        refine ⟨res0, ?_⟩
        unfold getMatchingObjectsWithContainers
        rw [hres0]
        rfl
      · exact ih acc1 res h f hf'

/-- A single-filter run computes exactly the single-filter predicates. -/
theorem single_run_char (cluster : List Workload) (f : ResourceFilter)
    (resf : List (Workload × List String))
    (h : getMatchingObjectsWithContainers cluster [f] [] = .ok resf) :
    (∀ n, entryNameMem resf n ↔ singleFilterName cluster f n)
    ∧ (∀ n c, entryContainerMem resf n c ↔ singleFilterContainer cluster f n c) := by
  obtain ⟨hn, hc⟩ := getMatchingObjectsWithContainers_mem cluster [f] [] resf h
  constructor
  · intro n
    rw [hn n]
    unfold entryNameMem
    simp
  · intro n c
    rw [hc n c]
    unfold entryContainerMem
    simp

/-- The glob-filter loop returns a sublist of the container names. -/
theorem selectContainersLoop_sublist (sel : String) :
    ∀ (l r : List String), selectContainersLoop sel l = .ok r → List.Sublist r l := by
  intro l
  induction l with
  | nil =>
    intro r h
    injection h with h2
    subst h2
    exact List.Sublist.refl []
  | cons c rest ih =>
    intro r h
    unfold selectContainersLoop at h
    cases hm : filepathMatch sel c with
    | error e =>
      rw [hm] at h
      exact Except.noConfusion h
    | ok b =>
      rw [hm] at h
      cases b with
      | false => exact (ih r h).cons c
      | true =>
        cases hrest : selectContainersLoop sel rest with
        | error e =>
          rw [hrest] at h
          exact Except.noConfusion h
        | ok l2 =>
          rw [hrest] at h
          injection h with h2
          subst h2
          exact (ih l2 hrest).cons₂ c

/-- Selected containers inherit duplicate-freedom from the workload. -/
theorem selectContainers_nodup (w : Workload) (sel : String) (cs : List String)
    (hw : w.containers.Nodup) (h : selectContainers w sel = .ok cs) : cs.Nodup := by
  unfold selectContainers at h
  split at h
  · injection h with h2
    subst h2
    exact hw
  · exact hw.sublist (selectContainersLoop_sublist sel w.containers cs h)

/-- Merging keeps every entry's container list duplicate-free. -/
theorem mergeEntry_nodup (w : Workload) (cs : List String) (hcs : cs.Nodup) :
    ∀ acc, (∀ e ∈ acc, (e.2 : List String).Nodup) →
      ∀ e' ∈ mergeEntry acc w cs, (e'.2 : List String).Nodup := by
  intro acc
  induction acc with
  | nil =>
    intro _ e' he'
    unfold mergeEntry at he'
    rw [List.mem_singleton] at he'
    subst he'
    exact hcs
  | cons e rest ih =>
    intro hacc e' he'
    unfold mergeEntry at he'
    split at he'
    · rcases List.mem_cons.mp he' with rfl | he'
      · exact nodup_unionFold cs e.2 (hacc e (List.mem_cons_self e rest))
      · exact hacc e' (List.mem_cons_of_mem e he')
    · rcases List.mem_cons.mp he' with rfl | he'
      · exact hacc e' (List.mem_cons_self e' rest)
      · exact ih (fun x hx => hacc x (List.mem_cons_of_mem e hx)) e' he'

/-- Elements of `addUniqueByName` come from the accumulator or the items. -/
theorem mem_addUniqueByName :
    ∀ (items acc : List Workload) (w : Workload),
      w ∈ addUniqueByName acc items → w ∈ acc ∨ w ∈ items := by
  intro items
  induction items with
  | nil =>
    intro acc w h
    exact Or.inl h
  | cons x items ih =>
    intro acc w h
    unfold addUniqueByName at h
    rw [List.foldl_cons] at h
    rcases ih _ w h with hmem | hmem
    · split at hmem
      · exact Or.inl hmem
      · rcases List.mem_append.mp hmem with hmem | hmem
        · exact Or.inl hmem
        · rw [List.mem_singleton] at hmem
          exact Or.inr (hmem ▸ List.mem_cons_self x items)
    · exact Or.inr (List.mem_cons_of_mem x hmem)

/-- Namespace matches come from the cluster. -/
theorem mem_matchingByNamespaceList (cluster : List Workload) (f : ResourceFilter)
    (w : Workload) (h : w ∈ matchingByNamespaceList cluster f) : w ∈ cluster := by
  unfold matchingByNamespaceList at h
  split at h
  · rename_i hlen
    revert h
    have : ∀ (nss : List String) (acc : List Workload), (∀ x ∈ acc, x ∈ cluster) →
        w ∈ nss.foldl (fun acc n => addUniqueByName acc (listInNamespace cluster n)) acc →
        w ∈ cluster := by
      intro nss
      induction nss with
      | nil =>
        intro acc hacc h
        exact hacc w h
      | cons n nss ih =>
        intro acc hacc h
        rw [List.foldl_cons] at h
        refine ih _ ?_ h
        intro x hx
        rcases mem_addUniqueByName _ acc x hx with hx | hx
        · exact hacc x hx
        · exact List.mem_of_mem_filter hx
    intro h
    exact this (f.namespaces.getD []) [] (by simp) h
  · exact absurd h (List.not_mem_nil w)

/-- Label matches come from the cluster. -/
theorem mem_matchingByLabelsList (cluster : List Workload) (f : ResourceFilter)
    (w : Workload) (h : w ∈ matchingByLabelsList cluster f) : w ∈ cluster := by
  unfold matchingByLabelsList at h
  split at h
  · exact absurd h (List.not_mem_nil w)
  · split at h
    · rcases mem_addUniqueByName _ [] w h with hx | hx
      · exact absurd hx (List.not_mem_nil w)
      · exact List.mem_of_mem_filter hx
    · exact absurd h (List.not_mem_nil w)

/-- Elements of the by-name intersection fold come from the accumulator or
the namespace matches. -/
theorem mem_intersectFold (A B : List Workload) :
    ∀ (m : List Workload) (w : Workload),
      w ∈ A.foldl (fun acc wNs =>
        B.foldl (fun acc wL =>
          if wNs.name = wL.name then
            (if containsName acc wNs.name then acc else acc ++ [wNs])
          else acc) acc) m →
      w ∈ m ∨ w ∈ A := by
  have hinner : ∀ (wNs : Workload) (m : List Workload) (w : Workload),
      w ∈ B.foldl (fun acc wL =>
        if wNs.name = wL.name then
          (if containsName acc wNs.name then acc else acc ++ [wNs])
        else acc) m →
      w ∈ m ∨ w = wNs := by
    intro wNs
    induction B with
    | nil =>
      intro m w h
      exact Or.inl h
    | cons wL B ih =>
      intro m w h
      rw [List.foldl_cons] at h
      rcases ih _ w h with hmem | hmem
      · split at hmem
        · split at hmem
          · exact Or.inl hmem
          · rcases List.mem_append.mp hmem with hmem | hmem
            · exact Or.inl hmem
            · rw [List.mem_singleton] at hmem
              exact Or.inr hmem
        · exact Or.inl hmem
      · exact Or.inr hmem
  intro m
  induction A generalizing m with
  | nil =>
    intro w h
    exact Or.inl h
  | cons wNs A ih =>
    intro w h
    rw [List.foldl_cons] at h
    rcases ih _ w h with hmem | hmem
    · rcases hinner wNs m w hmem with hmem | rfl
      · exact Or.inl hmem
      · exact Or.inr (List.mem_cons_self w A)
    · exact Or.inr (List.mem_cons_of_mem wNs hmem)

/-- Every matched object of a filter is a cluster workload. -/
theorem mem_getMatchingObjectsByNamespaceAndLabels (cluster : List Workload)
    (f : ResourceFilter) (w : Workload)
    (h : w ∈ getMatchingObjectsByNamespaceAndLabels cluster f) : w ∈ cluster := by
  unfold getMatchingObjectsByNamespaceAndLabels at h
  rcases mem_intersectFold (matchingByNamespaceList cluster f)
      (matchingByLabelsList cluster f) _ w h with hmem | hmem
  · split at hmem
    · rcases mem_addUniqueByName _ _ w hmem with hx | hx
      · split at hx
        · rcases mem_addUniqueByName _ _ w hx with hy | hy
          · exact absurd hy (List.not_mem_nil w)
          · exact mem_matchingByLabelsList cluster f w hy
        · exact absurd hx (List.not_mem_nil w)
      · exact mem_matchingByNamespaceList cluster f w hx
    · split at hmem
      · rcases mem_addUniqueByName _ _ w hmem with hx | hx
        · exact absurd hx (List.not_mem_nil w)
        · exact mem_matchingByLabelsList cluster f w hx
      · exact absurd hmem (List.not_mem_nil w)
  · exact mem_matchingByNamespaceList cluster f w hmem

/-- The inner loop keeps all container lists duplicate-free, given a
duplicate-free cluster. -/
theorem processObjs_nodup (cluster : List Workload) (f : ResourceFilter)
    (hcluster : ∀ w ∈ cluster, (Workload.containers w).Nodup) :
    ∀ (ws : List Workload) (acc res : List (Workload × List String)),
      (∀ w ∈ ws, w ∈ cluster) →
      (∀ e ∈ acc, (e.2 : List String).Nodup) →
      processObjs f ws acc = .ok res →
      ∀ e ∈ res, (e.2 : List String).Nodup := by
  intro ws
  induction ws with
  | nil =>
    intro acc res _ hacc h
    injection h with h2
    subst h2
    exact hacc
  | cons w ws ih =>
    intro acc res hws hacc h
    unfold processObjs at h
    cases hsel : selectContainers w f.containerSelector with
    | error e =>
      rw [hsel] at h
      exact Except.noConfusion h
    | ok cs =>
      rw [hsel] at h
      cases cs with
      | nil =>
        exact ih acc res (fun x hx => hws x (List.mem_cons_of_mem w hx)) hacc h
      | cons c0 cs0 =>
        refine ih (mergeEntry acc w (c0 :: cs0)) res
          (fun x hx => hws x (List.mem_cons_of_mem w hx)) ?_ h
        refine mergeEntry_nodup w (c0 :: cs0) ?_ acc hacc
        exact selectContainers_nodup w f.containerSelector (c0 :: cs0)
          (hcluster w (hws w (List.mem_cons_self w ws))) hsel

/-- The whole matcher keeps all container lists duplicate-free. -/
theorem getMatchingObjectsWithContainers_nodup (cluster : List Workload)
    (hcluster : ∀ w ∈ cluster, (Workload.containers w).Nodup) :
    ∀ (filters : List ResourceFilter) (acc res : List (Workload × List String)),
      (∀ e ∈ acc, (e.2 : List String).Nodup) →
      getMatchingObjectsWithContainers cluster filters acc = .ok res →
      ∀ e ∈ res, (e.2 : List String).Nodup := by
  intro filters
  induction filters with
  | nil =>
    intro acc res hacc h
    injection h with h2
    subst h2
    exact hacc
  | cons f fs ih =>
    intro acc res hacc h
    unfold getMatchingObjectsWithContainers at h
    cases hp : processObjs f (getMatchingObjectsByNamespaceAndLabels cluster f) acc with
    | error e =>
      rw [hp] at h
      exact Except.noConfusion h
    | ok acc1 =>
      rw [hp] at h
      refine ih acc1 res ?_ h
      exact processObjs_nodup cluster f hcluster _ acc acc1
        (fun x hx => mem_getMatchingObjectsByNamespaceAndLabels cluster f x hx) hacc hp

/-- `utils.Contains` over the extracted names decides name membership. -/
theorem containsName_iff (l : List Workload) (n : String) :
    containsName l n = true ↔ nameInList l n := by
  unfold containsName nameInList
  rw [List.any_eq_true]
  simp

/-- Names after appending a workload unless its name is already present. -/
theorem addIf_names (acc : List Workload) (x : Workload) (n : String) :
    nameInList (if containsName acc x.name then acc else acc ++ [x]) n
      ↔ nameInList acc n ∨ n = x.name := by
  by_cases hc : containsName acc x.name
  · rw [if_pos hc]
    constructor
    · exact Or.inl
    · rintro (h | rfl)
      · exact h
      · exact (containsName_iff acc x.name).mp hc
  · rw [if_neg hc]
    unfold nameInList
    simp only [List.mem_append, List.mem_singleton]
    constructor
    · rintro ⟨w, (hw | rfl), hwn⟩
      · exact Or.inl ⟨w, hw, hwn⟩
      · exact Or.inr hwn.symm
    · rintro (⟨w, hw, hwn⟩ | rfl)
      · exact ⟨w, Or.inl hw, hwn⟩
      · exact ⟨x, Or.inr rfl, rfl⟩

/-- Names after the deduplicating union. -/
theorem addUniqueByName_names (n : String) :
    ∀ (items acc : List Workload),
      nameInList (addUniqueByName acc items) n
        ↔ nameInList acc n ∨ nameInList items n := by
  intro items
  induction items with
  | nil =>
    intro acc
    unfold addUniqueByName nameInList
    simp
  | cons x items ih =>
    intro acc
    unfold addUniqueByName at ih ⊢
    rw [List.foldl_cons, ih, addIf_names]
    unfold nameInList
    simp only [List.mem_cons]
    constructor
    · rintro ((h | rfl) | ⟨w, hw, hwn⟩)
      · exact Or.inl h
      · exact Or.inr ⟨x, Or.inl rfl, rfl⟩
      · exact Or.inr ⟨w, Or.inr hw, hwn⟩
    · rintro (h | ⟨w, (rfl | hw), hwn⟩)
      · exact Or.inl (Or.inl h)
      · exact Or.inl (Or.inr hwn.symm)
      · exact Or.inr ⟨w, hw, hwn⟩

/-- The inner loop of the by-name intersection: add the namespace-matched
object once iff some label-matched object shares its name. -/
theorem innerFold_eq (wNs : Workload) (B : List Workload) :
    ∀ m, B.foldl (fun acc wL =>
        if wNs.name = wL.name then
          (if containsName acc wNs.name then acc else acc ++ [wNs])
        else acc) m
      = if B.any (fun wL => wNs.name = wL.name) then
          (if containsName m wNs.name then m else m ++ [wNs])
        else m := by
  induction B with
  | nil =>
    intro m
    simp
  | cons wL B ih =>
    intro m
    rw [List.foldl_cons]
    by_cases heq : wNs.name = wL.name
    · rw [if_pos heq, ih]
      have hany : (wL :: B).any (fun wL => decide (wNs.name = wL.name)) = true := by
        rw [List.any_cons]
        simp [heq]
      rw [hany]
      simp only [if_true]
      by_cases hc : containsName m wNs.name
      · rw [if_pos hc]
        split
        · rfl
        · rfl
      · rw [if_neg hc]
        have hc2 : containsName (m ++ [wNs]) wNs.name = true := by
          unfold containsName
          rw [List.any_eq_true]
          exact ⟨wNs, List.mem_append.mpr (Or.inr (List.mem_singleton.mpr rfl)), by simp⟩
        split
        · rfl
        · rfl
    · rw [if_neg heq, ih, List.any_cons]
      have : (decide (wNs.name = wL.name)) = false := by simp [heq]
      rw [this]
      simp

/-- The double loop of the by-name intersection equals a deduplicating
union of the namespace matches whose name also occurs among the label
matches. -/
theorem intersectFold_eq (B : List Workload) :
    ∀ (A : List Workload) (m : List Workload),
      A.foldl (fun acc wNs =>
        B.foldl (fun acc wL =>
          if wNs.name = wL.name then
            (if containsName acc wNs.name then acc else acc ++ [wNs])
          else acc) acc) m
      = addUniqueByName m (A.filter (fun wNs => B.any (fun wL => wNs.name = wL.name))) := by
  intro A
  induction A with
  | nil =>
    intro m
    rfl
  | cons wNs A ih =>
    intro m
    rw [List.foldl_cons, ih, innerFold_eq, List.filter_cons]
    split
    · rfl
    · rfl

/-- The empty workload list holds no name. -/
theorem nameInList_nil (n : String) : ¬ nameInList ([] : List Workload) n := by
  rintro ⟨w, hw, _⟩
  exact absurd hw (List.not_mem_nil w)

/-- An empty namespaces field yields no namespace matches. -/
theorem matchingByNamespaceList_empty (cluster : List Workload) (f : ResourceFilter)
    (h : lenOptList f.namespaces = 0) : matchingByNamespaceList cluster f = [] := by
  unfold matchingByNamespaceList
  rw [h]
  rfl

/-- An absent or empty label selector yields no label matches. -/
theorem matchingByLabelsList_empty (cluster : List Workload) (f : ResourceFilter)
    (h : selectorHasLabels f = false) : matchingByLabelsList cluster f = [] := by
  unfold matchingByLabelsList
  unfold selectorHasLabels at h
  cases hs : f.selector with
  | none => rfl
  | some sel =>
    rw [hs] at h
    have h2 : ¬ 0 < sel.matchLabels.length := by simpa using h
    show (if 0 < sel.matchLabels.length then
        addUniqueByName [] (listMatchingLabels cluster sel.matchLabels) else []) = []
    rw [if_neg h2]

/-- Name membership in the per-namespace listing fold. -/
theorem nsFold_names (cluster : List Workload) (n : String) :
    ∀ (nss : List String) (acc : List Workload),
      nameInList (nss.foldl (fun acc ns => addUniqueByName acc (listInNamespace cluster ns)) acc) n
        ↔ nameInList acc n ∨ ∃ w ∈ cluster, w.name = n ∧ w.ns ∈ nss := by
  intro nss
  induction nss with
  | nil =>
    intro acc
    rw [List.foldl_nil]
    constructor
    · exact Or.inl
    · rintro (h | ⟨w, _, _, hns⟩)
      · exact h
      · exact absurd hns (List.not_mem_nil _)
  | cons ns0 nss ih =>
    intro acc
    rw [List.foldl_cons, ih, addUniqueByName_names]
    constructor
    · rintro ((ha | ⟨w, hw, hn⟩) | ⟨w, hw, hn, hns⟩)
      · exact Or.inl ha
      · have hmem := List.mem_filter.mp hw
        refine Or.inr ⟨w, hmem.1, hn, ?_⟩
        have hns : w.ns = ns0 := by simpa using hmem.2
        rw [hns]
        exact List.mem_cons_self ns0 nss
      · exact Or.inr ⟨w, hw, hn, List.mem_cons_of_mem ns0 hns⟩
    · rintro (ha | ⟨w, hw, hn, hns⟩)
      · exact Or.inl (Or.inl ha)
      · rcases List.mem_cons.mp hns with h0 | h0
        · exact Or.inl (Or.inr ⟨w, List.mem_filter.mpr ⟨hw, by simp [h0]⟩, hn⟩)
        · exact Or.inr ⟨w, hw, hn, h0⟩

/-- Names of the namespace matches: cluster workloads lying in one of the
filter namespaces. -/
theorem matchingByNamespaceList_names (cluster : List Workload) (f : ResourceFilter)
    (n : String) :
    nameInList (matchingByNamespaceList cluster f) n
      ↔ ∃ w ∈ cluster, w.name = n ∧ w.ns ∈ f.namespaces.getD [] := by
  unfold matchingByNamespaceList
  split
  · rw [nsFold_names]
    constructor
    · rintro (h | h)
      · exact absurd h (nameInList_nil n)
      · exact h
    · exact Or.inr
  · rename_i hlen
    have hnil : f.namespaces.getD [] = [] := by
      cases hns : f.namespaces with
      | none => rfl
      | some l =>
        rw [hns] at hlen
        unfold lenOptList at hlen
        simp only [Option.getD_some] at hlen ⊢
        exact List.length_eq_zero.mp (Nat.eq_zero_of_not_pos hlen)
    rw [hnil]
    constructor
    · intro h
      exact absurd h (nameInList_nil n)
    · rintro ⟨w, _, _, hns⟩
      exact absurd hns (List.not_mem_nil _)

/-- Names of the label matches when the selector is set with labels:
cluster workloads carrying all the selector labels. -/
theorem matchingByLabelsList_names (cluster : List Workload) (f : ResourceFilter)
    (sel : LabelSelector) (hsel : f.selector = some sel)
    (hlen : 0 < sel.matchLabels.length) (n : String) :
    nameInList (matchingByLabelsList cluster f) n
      ↔ ∃ w ∈ cluster, w.name = n ∧ matchesLabels w.labels sel.matchLabels = true := by
  unfold matchingByLabelsList
  rw [hsel]
  show nameInList (if 0 < sel.matchLabels.length then
      addUniqueByName [] (listMatchingLabels cluster sel.matchLabels) else []) n ↔ _
  rw [if_pos hlen, addUniqueByName_names]
  constructor
  · rintro (h | ⟨w, hw, hn⟩)
    · exact absurd h (nameInList_nil n)
    · have hmem := List.mem_filter.mp hw
      exact ⟨w, hmem.1, hn, by simpa using hmem.2⟩
  · rintro ⟨w, hw, hn, hm⟩
    exact Or.inr ⟨w, List.mem_filter.mpr ⟨hw, by simpa using hm⟩, hn⟩

/-- Names surviving the by-name filter against the label matches: present
in both lists. -/
theorem filterAny_names (A B : List Workload) (n : String) :
    nameInList (A.filter (fun wNs => B.any (fun wL => wNs.name = wL.name))) n
      ↔ nameInList A n ∧ nameInList B n := by
  constructor
  · rintro ⟨w, hw, hn⟩
    have hmem := List.mem_filter.mp hw
    have hany : ∃ wL ∈ B, w.name = wL.name := by
      have h2 := hmem.2
      simp only [List.any_eq_true, decide_eq_true_eq] at h2
      exact h2
    obtain ⟨wL, hwL, hWL⟩ := hany
    exact ⟨⟨w, hmem.1, hn⟩, ⟨wL, hwL, by rw [← hWL, hn]⟩⟩
  · rintro ⟨⟨w, hw, hn⟩, ⟨wL, hwL, hLn⟩⟩
    refine ⟨w, List.mem_filter.mpr ⟨hw, ?_⟩, hn⟩
    simp only [List.any_eq_true, decide_eq_true_eq]
    exact ⟨wL, hwL, by rw [hn, hLn]⟩

/-- Both namespaces and labels set: the combination is the by-name
intersection of the two match lists. -/
theorem getMatching_names_both (cluster : List Workload) (f : ResourceFilter)
    (hns : 0 < lenOptList f.namespaces) (hsel : selectorHasLabels f = true) (n : String) :
    nameInList (getMatchingObjectsByNamespaceAndLabels cluster f) n
      ↔ nameInList (matchingByNamespaceList cluster f) n
        ∧ nameInList (matchingByLabelsList cluster f) n := by
  simp only [getMatchingObjectsByNamespaceAndLabels]
  rw [intersectFold_eq]
  have hne : ¬(lenOptList f.namespaces = 0) := by omega
  have hne2 : ¬(selectorHasLabels f = false) := by simp [hsel]
  rw [if_neg hne, if_neg hne2, addUniqueByName_names, filterAny_names]
  constructor
  · rintro (h | h)
    · exact absurd h (nameInList_nil n)
    · exact h
  · exact Or.inr

/-- Only namespaces set: the combination equals the namespace matches. -/
theorem getMatching_names_nsOnly (cluster : List Workload) (f : ResourceFilter)
    (hns : 0 < lenOptList f.namespaces) (hsel : selectorHasLabels f = false) (n : String) :
    nameInList (getMatchingObjectsByNamespaceAndLabels cluster f) n
      ↔ nameInList (matchingByNamespaceList cluster f) n := by
  simp only [getMatchingObjectsByNamespaceAndLabels]
  rw [intersectFold_eq]
  have hne : ¬(lenOptList f.namespaces = 0) := by omega
  rw [matchingByLabelsList_empty cluster f hsel, if_neg hne, if_pos hsel]
  rw [addUniqueByName_names]
  simp only [List.any_nil]
  rw [List.filter_false]
  constructor
  · rintro (h | h)
    · rw [addUniqueByName_names] at h
      rcases h with h | h
      · exact absurd h (nameInList_nil n)
      · exact h
    · exact absurd h (nameInList_nil n)
  · intro h
    exact Or.inl ((addUniqueByName_names n _ _).mpr (Or.inr h))

/-- Only labels set: the combination equals the label matches. -/
theorem getMatching_names_labelsOnly (cluster : List Workload) (f : ResourceFilter)
    (hns : lenOptList f.namespaces = 0) (hsel : selectorHasLabels f = true) (n : String) :
    nameInList (getMatchingObjectsByNamespaceAndLabels cluster f) n
      ↔ nameInList (matchingByLabelsList cluster f) n := by
  simp only [getMatchingObjectsByNamespaceAndLabels]
  rw [intersectFold_eq]
  have hne2 : ¬(selectorHasLabels f = false) := by simp [hsel]
  rw [matchingByNamespaceList_empty cluster f hns, if_pos hns, if_neg hne2]
  rw [List.filter_nil]
  show nameInList (addUniqueByName [] (matchingByLabelsList cluster f)) n ↔ _
  rw [addUniqueByName_names]
  constructor
  · rintro (h | h)
    · exact absurd h (nameInList_nil n)
    · exact h
  · exact Or.inr

/-- Neither namespaces nor labels set: the filter matches nothing. -/
theorem getMatching_neither (cluster : List Workload) (f : ResourceFilter)
    (hns : lenOptList f.namespaces = 0) (hsel : selectorHasLabels f = false) :
    getMatchingObjectsByNamespaceAndLabels cluster f = [] := by
  simp only [getMatchingObjectsByNamespaceAndLabels]
  rw [matchingByNamespaceList_empty cluster f hns, matchingByLabelsList_empty cluster f hsel]
  rw [if_pos hns, if_pos hsel]
  rfl

/-- C5: matcher composition.  (a) Across filters the run is a logical OR:
for a successful run from the empty map, a workload name (resp. a
(name, container) pair) is in the result iff some filter of the list
matches it — where a single filter matches exactly what its own
single-filter run computes — and all container lists stay duplicate-free
when the cluster declares duplicate-free containers.  (b) Within one
filter: with namespaces and a non-empty label selector both set the
matched names are exactly those in both the namespace matches and the
label matches; with only namespaces set, the namespace matches alone;
with only labels set, the label matches alone; with neither set the
filter matches nothing.  The namespace matches are the cluster workloads
lying in one of the filter namespaces, the label matches the cluster
workloads carrying all the selector labels. -/
theorem c5_matcher_composition
    (cluster : List Workload)
    (hcluster : ∀ w ∈ cluster, (Workload.containers w).Nodup)
    (filters : List ResourceFilter)
    (res : List (Workload × List String))
    (hrun : getMatchingObjectsWithContainers cluster filters [] = Except.ok res) :
    ((∀ n, entryNameMem res n ↔ ∃ f ∈ filters, singleFilterName cluster f n)
      ∧ (∀ n c, entryContainerMem res n c ↔ ∃ f ∈ filters, singleFilterContainer cluster f n c)
      ∧ (∀ e ∈ res, (e.2 : List String).Nodup)
      ∧ (∀ f ∈ filters, ∃ resf,
          getMatchingObjectsWithContainers cluster [f] [] = Except.ok resf
          ∧ (∀ n, entryNameMem resf n ↔ singleFilterName cluster f n)
          ∧ (∀ n c, entryContainerMem resf n c ↔ singleFilterContainer cluster f n c)))
    ∧ (∀ f : ResourceFilter, ∀ n : String,
        (0 < lenOptList f.namespaces → selectorHasLabels f = true →
          (nameInList (getMatchingObjectsByNamespaceAndLabels cluster f) n ↔
            nameInList (matchingByNamespaceList cluster f) n
            ∧ nameInList (matchingByLabelsList cluster f) n))
        ∧ (0 < lenOptList f.namespaces → selectorHasLabels f = false →
          (nameInList (getMatchingObjectsByNamespaceAndLabels cluster f) n ↔
            nameInList (matchingByNamespaceList cluster f) n))
        ∧ (lenOptList f.namespaces = 0 → selectorHasLabels f = true →
          (nameInList (getMatchingObjectsByNamespaceAndLabels cluster f) n ↔
            nameInList (matchingByLabelsList cluster f) n))
        ∧ (lenOptList f.namespaces = 0 → selectorHasLabels f = false →
          getMatchingObjectsByNamespaceAndLabels cluster f = [])
        ∧ (nameInList (matchingByNamespaceList cluster f) n ↔
            ∃ w ∈ cluster, w.name = n ∧ w.ns ∈ f.namespaces.getD [])
        ∧ (∀ sel, f.selector = some sel → 0 < sel.matchLabels.length →
            (nameInList (matchingByLabelsList cluster f) n ↔
              ∃ w ∈ cluster, w.name = n
                ∧ matchesLabels w.labels sel.matchLabels = true))) := by
  obtain ⟨hn, hc⟩ := getMatchingObjectsWithContainers_mem cluster filters [] res hrun
  refine ⟨⟨?_, ?_, ?_, ?_⟩, ?_⟩
  · intro n
    rw [hn n]
    unfold entryNameMem
    simp
  · intro n c
    rw [hc n c]
    unfold entryContainerMem
    simp
  · refine getMatchingObjectsWithContainers_nodup cluster hcluster filters [] res ?_ hrun
    intro e he
    exact absurd he (List.not_mem_nil e)
  · intro f hf
    obtain ⟨resf, hresf⟩ :=
      getMatchingObjectsWithContainers_single_ok cluster filters [] res hrun f hf
    obtain ⟨h1, h2⟩ := single_run_char cluster f resf hresf
    exact ⟨resf, hresf, h1, h2⟩
  · intro f n
    refine ⟨fun h1 h2 => getMatching_names_both cluster f h1 h2 n,
      fun h1 h2 => getMatching_names_nsOnly cluster f h1 h2 n,
      fun h1 h2 => getMatching_names_labelsOnly cluster f h1 h2 n,
      fun h1 h2 => getMatching_neither cluster f h1 h2,
      matchingByNamespaceList_names cluster f n,
      fun sel hsel hlen => matchingByLabelsList_names cluster f sel hsel hlen n⟩

/-- A small cluster for exercising the matcher. -/
def c5Cluster : List Workload :=
  [ { name := "pod-a", ns := "ns1", labels := [("app", "web")], containers := ["main", "sidecar"] },
    { name := "pod-b", ns := "ns2", labels := [("app", "web")], containers := ["main"] } ]

/-- Two filters: one by namespace only, one by labels only. -/
def c5Filters : List ResourceFilter :=
  [ { namespaces := some ["ns1"], selector := none, containerSelector := "*" },
    { namespaces := none, selector := some { matchLabels := [("app", "web")] }, containerSelector := "*" } ]

/-- The matcher run on `c5Cluster` with `c5Filters`. -/
def c5Res : List (Workload × List String) :=
  [ ({ name := "pod-a", ns := "ns1", labels := [("app", "web")], containers := ["main", "sidecar"] },
      ["main", "sidecar"]),
    ({ name := "pod-b", ns := "ns2", labels := [("app", "web")], containers := ["main"] },
      ["main"]) ]

/-- C5 witness: on the concrete cluster and filters the run succeeds with
`c5Res`, the hypotheses hold, and the OR-composition and duplicate-freedom
conclusions follow by applying the theorem. -/
theorem c5_matcher_composition_witness :
    (∀ w ∈ c5Cluster, (Workload.containers w).Nodup)
    ∧ getMatchingObjectsWithContainers c5Cluster c5Filters [] = Except.ok c5Res
    ∧ ((∀ n, entryNameMem c5Res n ↔ ∃ f ∈ c5Filters, singleFilterName c5Cluster f n)
        ∧ (∀ e ∈ c5Res, (e.2 : List String).Nodup)) :=
  ⟨by decide, by rfl,
    (c5_matcher_composition c5Cluster (by decide) c5Filters c5Res (by rfl)).1.1,
    (c5_matcher_composition c5Cluster (by decide) c5Filters c5Res (by rfl)).1.2.2.1⟩

/-! ## internal/controller/matching: readiness filtering

Pods and deployments as the readiness filter sees them; `State.Running` is
a nilable pointer modelled by a Bool recording non-nilness.  The Go maps
are association lists; the map insertions of the loops become ordered
appends. -/

/-- Mirrors `corev1.PodCondition` as read by the filter (type, status). -/
structure PodCondition where
  condType : String
  status : ConditionStatus
deriving DecidableEq, Repr

/-- Mirrors `appsv1.DeploymentCondition` as read by the filter. -/
structure DeploymentCondition where
  condType : String
  status : ConditionStatus
deriving DecidableEq, Repr

/-- Mirrors `corev1.ContainerStatus` as read by the filter: name, `Ready`,
and whether `State.Running` is non-nil. -/
structure ContainerStatus where
  name : String
  ready : Bool
  runningNonNil : Bool
deriving DecidableEq, Repr

/-- A pod as `filterPodsReadyForTraps` sees it. -/
structure Pod where
  name : String
  phase : String
  conditions : List PodCondition
  containerStatuses : List ContainerStatus
deriving DecidableEq, Repr

/-- A deployment as `filterDeploymentsReadyForTraps` sees it. -/
structure Deployment where
  name : String
  conditions : List DeploymentCondition
deriving DecidableEq, Repr

/-- Mirrors `utils.GetPodCondition`: the status of the first condition of
the given type, `Unknown` when absent. -/
def GetPodCondition (conditions : List PodCondition) (t : String) : ConditionStatus :=
  match conditions with
  | [] => .conditionUnknown
  | c :: rest => if c.condType = t then c.status else GetPodCondition rest t

/-- Mirrors `utils.GetDeploymentCondition`: the status of the first
condition of the given type, `Unknown` when absent. -/
def GetDeploymentCondition (conditions : List DeploymentCondition) (t : String) :
    ConditionStatus :=
  match conditions with
  | [] => .conditionUnknown
  | c :: rest => if c.condType = t then c.status else GetDeploymentCondition rest t

/-- The container loop of `filterPodsReadyForTraps`: walk the pod's
container statuses; ignore statuses whose name is not among the matched
containers; a matched status with nil `State.Running` or `Ready` false is
skipped and clears the flag; otherwise its name is kept. -/
def filterPodContainers (containers : List String) :
    List ContainerStatus → List String × Bool
  | [] => ([], true)
  | st :: rest =>
    if st.name ∈ containers then
      if st.runningNonNil = false ∨ st.ready = false then
        ((filterPodContainers containers rest).1, false)
      else
        (st.name :: (filterPodContainers containers rest).1,
          (filterPodContainers containers rest).2)
    else filterPodContainers containers rest

/-- One iteration of `filterPodsReadyForTraps`: a non-Running pod is
dropped and clears the flag; otherwise a missing-or-not-True
`ContainersReady` condition clears the flag (the pod is still processed),
the containers are filtered, and the pod enters the result map only with
a non-empty kept list (`append` on an absent map key). -/
def podFilterStep (acc : List (Pod × List String) × Bool) (e : Pod × List String) :
    List (Pod × List String) × Bool :=
  if e.1.phase = "Running" then
    ((if (filterPodContainers e.2 e.1.containerStatuses).1 = [] then acc.1
      else acc.1 ++ [(e.1, (filterPodContainers e.2 e.1.containerStatuses).1)]),
     (if GetPodCondition e.1.conditions "ContainersReady" = ConditionStatus.conditionTrue
       then acc.2 else false)
       && (filterPodContainers e.2 e.1.containerStatuses).2)
  else (acc.1, false)

/-- Mirrors `filterPodsReadyForTraps` (matching.go). -/
def filterPodsReadyForTraps (objects : List (Pod × List String)) :
    List (Pod × List String) × Bool :=
  objects.foldl podFilterStep ([], true)

/-- One iteration of `filterDeploymentsReadyForTraps`: keep the deployment
(containers untouched) iff its `Available` condition is True, else drop it
and clear the flag. -/
def depFilterStep (acc : List (Deployment × List String) × Bool)
    (e : Deployment × List String) : List (Deployment × List String) × Bool :=
  if GetDeploymentCondition e.1.conditions "Available" = ConditionStatus.conditionTrue
  then (acc.1 ++ [e], acc.2)
  else (acc.1, false)

/-- Mirrors `filterDeploymentsReadyForTraps` (matching.go). -/
def filterDeploymentsReadyForTraps (objects : List (Deployment × List String)) :
    List (Deployment × List String) × Bool :=
  objects.foldl depFilterStep ([], true)

/-- The container loop keeps exactly the matched, running, ready status
names (in status order) and its flag is true iff no matched status was
skipped. -/
theorem filterPodContainers_eq (cs : List String) :
    ∀ sts : List ContainerStatus,
      filterPodContainers cs sts
        = ((sts.filter (fun st => decide (st.name ∈ cs) && st.runningNonNil && st.ready)).map
              ContainerStatus.name,
           sts.all (fun st => if st.name ∈ cs then st.runningNonNil && st.ready else true)) := by
  intro sts
  induction sts with
  | nil => rfl
  | cons st rest ih =>
    unfold filterPodContainers
    rw [List.filter_cons, List.all_cons]
    by_cases hmem : st.name ∈ cs
    · by_cases hrun : st.runningNonNil = false ∨ st.ready = false
      · have hb : (decide (st.name ∈ cs) && st.runningNonNil && st.ready) = false := by
          rcases hrun with h | h <;> simp [h]
        simp [hmem, hrun, hb, ih]
        rcases hrun with h | h <;> simp [h]
      · have ha : st.runningNonNil = true := by
          cases h : st.runningNonNil
          · exact absurd (Or.inl h) hrun
          · rfl
        have hb : st.ready = true := by
          cases h : st.ready
          · exact absurd (Or.inr h) hrun
          · rfl
        simp [hmem, hrun, ha, hb, ih]
    · simp [hmem, ih]

/-- The pod loop from any accumulator: kept entries appended in order, the
flag an AND over the pods. -/
theorem filterPods_foldl_eq :
    ∀ (pods : List (Pod × List String)) (acc : List (Pod × List String) × Bool),
      pods.foldl podFilterStep acc
        = (acc.1 ++ pods.filterMap (fun e =>
             if e.1.phase = "Running"
                 ∧ (filterPodContainers e.2 e.1.containerStatuses).1 ≠ [] then
               some (e.1, (filterPodContainers e.2 e.1.containerStatuses).1)
             else none),
           acc.2 && pods.all (fun e =>
             decide (e.1.phase = "Running")
             && decide (GetPodCondition e.1.conditions "ContainersReady"
                  = ConditionStatus.conditionTrue)
             && (filterPodContainers e.2 e.1.containerStatuses).2)) := by
  intro pods
  induction pods with
  | nil =>
    intro acc
    simp
  | cons e pods ih =>
    intro acc
    rw [List.foldl_cons, ih, List.filterMap_cons, List.all_cons]
    unfold podFilterStep
    by_cases hphase : e.1.phase = "Running"
    · by_cases hkept : (filterPodContainers e.2 e.1.containerStatuses).1 = []
      · by_cases hcond : GetPodCondition e.1.conditions "ContainersReady"
            = ConditionStatus.conditionTrue
        · simp [hphase, hkept, hcond, Bool.and_assoc]
        · simp [hphase, hkept, hcond]
      · by_cases hcond : GetPodCondition e.1.conditions "ContainersReady"
            = ConditionStatus.conditionTrue
        · simp [hphase, hkept, hcond, Bool.and_assoc]
        · simp [hphase, hkept, hcond]
    · simp [hphase]

/-- The deployment loop from any accumulator: a plain filter on the
Available condition, the flag an AND over the deployments. -/
theorem filterDeps_foldl_eq :
    ∀ (deps : List (Deployment × List String)) (acc : List (Deployment × List String) × Bool),
      deps.foldl depFilterStep acc
        = (acc.1 ++ deps.filter (fun e =>
             GetDeploymentCondition e.1.conditions "Available" = ConditionStatus.conditionTrue),
           acc.2 && deps.all (fun e =>
             GetDeploymentCondition e.1.conditions "Available"
               = ConditionStatus.conditionTrue)) := by
  intro deps
  induction deps with
  | nil =>
    intro acc
    simp
  | cons e deps ih =>
    intro acc
    rw [List.foldl_cons, ih, List.filter_cons, List.all_cons]
    unfold depFilterStep
    by_cases hcond : GetDeploymentCondition e.1.conditions "Available"
        = ConditionStatus.conditionTrue
    · simp [hcond]
    · simp [hcond]

/-- A running pod with no `ContainersReady` condition whose only matched
container is ready and running. -/
def c6PodA : Pod :=
  { name := "pod-a", phase := "Running", conditions := []
    containerStatuses := [{ name := "app", ready := true, runningNonNil := true }] }

/-- A running pod with `ContainersReady` True whose second matched
container has no container status at all. -/
def c6PodB : Pod :=
  { name := "pod-b", phase := "Running"
    conditions := [{ condType := "ContainersReady", status := .conditionTrue }]
    containerStatuses := [{ name := "a", ready := true, runningNonNil := true }] }

/-- C6 counterexample: the returned flag is not "false exactly when the
filtering dropped something".  For `c6PodA` nothing is dropped (the output
map equals the input) yet the flag is false, because the absent
`ContainersReady` condition reads as Unknown; for `c6PodB` the matched
container "b" is silently dropped (it has no container status) yet the
flag stays true. -/
theorem c6_allready_not_a_drop_indicator :
    (filterPodsReadyForTraps [(c6PodA, ["app"])] = ([(c6PodA, ["app"])], false))
    ∧ (filterPodsReadyForTraps [(c6PodB, ["a", "b"])] = ([(c6PodB, ["a"])], true)) := by
  constructor
  · rfl
  · rfl

/-- C6 amended: pods are kept iff Running with a non-empty filtered
container list, keeping exactly the matched, ready, running status names;
the pod flag is an AND, over all pods, of Running, of the `ContainersReady`
condition being True, and of no matched container status being skipped (a
matched container without any status is dropped without clearing the
flag); deployments are kept iff their `Available` condition is True, with
containers unfiltered, and the deployment flag is exactly "no deployment
was dropped". -/
theorem c6_readiness_filtering (pods : List (Pod × List String))
    (deps : List (Deployment × List String)) :
    filterPodsReadyForTraps pods
      = (pods.filterMap (fun e =>
           if e.1.phase = "Running"
               ∧ ((e.1.containerStatuses.filter (fun st =>
                     decide (st.name ∈ e.2) && st.runningNonNil && st.ready)).map
                   ContainerStatus.name) ≠ [] then
             some (e.1, (e.1.containerStatuses.filter (fun st =>
                 decide (st.name ∈ e.2) && st.runningNonNil && st.ready)).map
               ContainerStatus.name)
           else none),
         pods.all (fun e =>
           decide (e.1.phase = "Running")
           && decide (GetPodCondition e.1.conditions "ContainersReady"
                = ConditionStatus.conditionTrue)
           && e.1.containerStatuses.all (fun st =>
                if st.name ∈ e.2 then st.runningNonNil && st.ready else true)))
    ∧ filterDeploymentsReadyForTraps deps
      = (deps.filter (fun e =>
           GetDeploymentCondition e.1.conditions "Available" = ConditionStatus.conditionTrue),
         deps.all (fun e =>
           GetDeploymentCondition e.1.conditions "Available"
             = ConditionStatus.conditionTrue)) := by
  constructor
  · unfold filterPodsReadyForTraps
    rw [filterPods_foldl_eq]
    simp only [filterPodContainers_eq, List.nil_append, Bool.true_and]
  · unfold filterDeploymentsReadyForTraps
    rw [filterDeps_foldl_eq]
    simp only [List.nil_append, Bool.true_and]

end Koney
